import Mathlib

/-!
Verification development for the DRF (Device Request Format) parser and
canonicalizer of the acsys-cli repository (src/src/drf/mod.rs and its
submodules device.rs, prop_field.rs, range.rs, event.rs).

The Rust code is written against the `combine` parser-combinator crate.
`combine` parsers distinguish four outcomes: success or failure, each
either having consumed input or not.  Alternation (`choice`, `or`,
`optional`) only falls through to the next alternative on an *empty*
failure; a failure after consumption aborts the whole alternation.  We
embed that semantics directly: a parser is a function from the remaining
input (a list of characters) to a four-way result.

Numeric types are embedded as `Nat` with explicit bounds where the Rust
code checks them (`u16::from_str_radix`, `str::parse::<u32>`, and the
saturation logic of `scale_rate` against `u32::MAX`).

Note on character classes: the Rust code uses `combine`'s `letter`,
`alpha_num`, `digit` and `hex_digit`, which for the ASCII inputs that
this grammar deals in are the explicit code-point range predicates
`isAlphaB`, `isAlphanumB`, `isDigitB` and `isHexDigitB` below.
-/

namespace Drf

/-! ## Data model (src/src/drf/mod.rs) -/

inductive ReadingField where
  | Raw | Primary | Scaled
deriving DecidableEq, Repr

def ReadingField.default : ReadingField := .Scaled

def ReadingField.canonical : ReadingField → String
  | .Raw => ".RAW"
  | .Primary => ".PRIMARY"
  | .Scaled => ".SCALED"

inductive SettingField where
  | Raw | Primary | Scaled
deriving DecidableEq, Repr

def SettingField.default : SettingField := .Scaled

def SettingField.canonical : SettingField → String
  | .Raw => ".RAW"
  | .Primary => ".PRIMARY"
  | .Scaled => ".SCALED"

inductive StatusField where
  | Raw | All | Text | ExtText | On | Ready | Remote | Positive | Ramp
deriving DecidableEq, Repr

def StatusField.default : StatusField := .All

def StatusField.canonical : StatusField → String
  | .Raw => ".RAW"
  | .All => ".ALL"
  | .Text => ".TEXT"
  | .ExtText => ".EXTENDED_TEXT"
  | .On => ".ON"
  | .Ready => ".READY"
  | .Remote => ".REMOTE"
  | .Positive => ".POSITIVE"
  | .Ramp => ".RAMP"

inductive AnalogField where
  | Raw | All | Text | Min | Max | Nom | Tol
  | RawMin | RawMax | RawNom | RawTol
  | Enable | Status | TriesNeeded | TriesNow | FTD
  | Abort | AbortInhibit | Flags
deriving DecidableEq, Repr

def AnalogField.default : AnalogField := .All

def AnalogField.canonical : AnalogField → String
  | .Raw => ".RAW"
  | .All => ".ALL"
  | .Text => ".TEXT"
  | .Min => ".MIN"
  | .Max => ".MAX"
  | .Nom => ".NOM"
  | .Tol => ".TOL"
  | .RawMin => ".RAW_MIN"
  | .RawMax => ".RAW_MAX"
  | .RawNom => ".RAW_NOM"
  | .RawTol => ".RAW_TOL"
  | .Enable => ".ALARM_ENABLE"
  | .Status => ".ALARM_STATUS"
  | .TriesNeeded => ".TRIES_NEEDED"
  | .TriesNow => ".TRIES_NOW"
  | .FTD => ".ALARM_FTD"
  | .Abort => ".ABORT"
  | .AbortInhibit => ".ABORT_INHIBIT"
  | .Flags => ".FLAGS"

inductive DigitalField where
  | Raw | All | Text | Nom | Mask
  | Enable | Status | TriesNeeded | TriesNow | FTD
  | Abort | AbortInhibit | Flags
deriving DecidableEq, Repr

def DigitalField.default : DigitalField := .All

def DigitalField.canonical : DigitalField → String
  | .Raw => ".RAW"
  | .All => ".ALL"
  | .Text => ".TEXT"
  | .Nom => ".NOM"
  | .Mask => ".MASK"
  | .Enable => ".ALARM_ENABLE"
  | .Status => ".ALARM_STATUS"
  | .TriesNeeded => ".TRIES_NEEDED"
  | .TriesNow => ".TRIES_NOW"
  | .FTD => ".ALARM_FTD"
  | .Abort => ".ABORT"
  | .AbortInhibit => ".ABORT_INHIBIT"
  | .Flags => ".FLAGS"

inductive Property where
  | Reading : ReadingField → Property
  | Setting : SettingField → Property
  | Status : StatusField → Property
  | Control : Property
  | Analog : AnalogField → Property
  | Digital : DigitalField → Property
  | Description : Property
  | Index : Property
  | LongName : Property
  | AlarmList : Property
deriving DecidableEq, Repr

def Property.canonical : Property → String × String
  | .Reading fld => (".READING", fld.canonical)
  | .Setting fld => (".SETTING", fld.canonical)
  | .Status fld => (".STATUS", fld.canonical)
  | .Control => (".CONTROL", "")
  | .Analog fld => (".ANALOG", fld.canonical)
  | .Digital fld => (".DIGITAL", fld.canonical)
  | .Description => (".DESCRIPTION", "")
  | .Index => (".INDEX", "")
  | .LongName => (".LONG_NAME", "")
  | .AlarmList => (".ALARM_LIST_NAME", "")

inductive Range where
  | Full : Range
  | Array : Nat → Option Nat → Range
  | Raw : Nat → Option Nat → Range
deriving DecidableEq, Repr

inductive StateOp where
  | Eq | NEq | GT | LT | LEq | GEq | All
deriving DecidableEq, Repr

def StateOp.canonical : StateOp → String
  | .Eq => "="
  | .NEq => "!="
  | .GT => ">"
  | .LT => "<"
  | .LEq => "<="
  | .GEq => ">="
  | .All => "*"

inductive ClockType where
  | Hardware | Software | Either
deriving DecidableEq, Repr

def ClockType.default : ClockType := .Either

def ClockType.canonical : ClockType → String
  | .Hardware => "H"
  | .Software => "S"
  | .Either => "E"

inductive Event where
  | Never : Event
  | Immediate : Event
  | Default : Event
  | Periodic : Nat → Bool → Bool → Event
  | Clock : Nat → ClockType → Nat → Event
  | State : Nat → Nat → Nat → StateOp → Event
deriving DecidableEq, Repr

structure Request where
  device : String
  property : Property
  range : Range
  event : Event
deriving DecidableEq, Repr

/-! ## Decimal and hexadecimal rendering of numbers (for `format!`) -/

def decDigitChar (n : Nat) : Char := Char.ofNat (48 + n)

def hexDigitChar (n : Nat) : Char :=
  if n < 10 then Char.ofNat (48 + n) else Char.ofNat (55 + n)

def toDecCh (n : Nat) : List Char :=
  if _h : n < 10 then [decDigitChar n]
  else toDecCh (n / 10) ++ [decDigitChar (n % 10)]
decreasing_by exact Nat.div_lt_self (by omega) (by omega)

def toHexCh (n : Nat) : List Char :=
  if _h : n < 16 then [hexDigitChar n]
  else toHexCh (n / 16) ++ [hexDigitChar (n % 16)]
decreasing_by exact Nat.div_lt_self (by omega) (by omega)

def toDecS (n : Nat) : String := String.mk (toDecCh n)

/-! ## Canonical rendering (the `canonical` methods from mod.rs) -/

def Range.canonical : Range → String
  | .Full => "[]"
  | .Array s oe =>
    match s, oe with
    | 0, some 0 => ""
    | s, some e =>
      if s = e then String.mk ('[' :: toDecCh s ++ [']'])
      else String.mk ('[' :: toDecCh s ++ ':' :: toDecCh e ++ [']'])
    | s, none => String.mk ('[' :: toDecCh s ++ [':', ']'])
  | .Raw o ol =>
    match o, ol with
    | o, some 1 => String.mk ('{' :: toDecCh o ++ ['}'])
    | o, some l => String.mk ('{' :: toDecCh o ++ ':' :: toDecCh l ++ ['}'])
    | o, none => String.mk ('{' :: toDecCh o ++ [':', '}'])

def Event.canonical : Event → String
  | .Default => ""
  | .Never => "@N"
  | .Immediate => "@I"
  | .Periodic period immediate skipDups =>
    "@" ++ (if skipDups then "Q" else "P") ++ "," ++ toDecS period ++ "U,"
        ++ (if immediate then "TRUE" else "FALSE")
  | .Clock event clkType delay =>
    "@E," ++ String.mk (toHexCh event) ++ "," ++ clkType.canonical ++ ","
          ++ toDecS delay ++ "U"
  | .State device value delay expr =>
    "@S," ++ toDecS device ++ "," ++ toDecS value ++ ","
          ++ toDecS delay ++ "U," ++ expr.canonical

def Request.canonical (r : Request) : String :=
  let (prop, field) := r.property.canonical
  r.device ++ prop ++ r.range.canonical ++ field ++ r.event.canonical

/-! ## Parser-combinator core (semantics of the `combine` crate)

A result is success or failure, each flagged with whether input was
consumed.  `orP` (combine's `or`/`choice`) tries its second argument
only on an empty failure.  `optionalP` is `p.map(Some).or(value(None))`.
`attemptP` turns a consumed failure into an empty one.  `bindP` marks
the result consumed as soon as either part consumed, and a failure of
the second part after the first consumed is a consumed failure. -/

inductive PResult (α : Type) where
  | cok : α → List Char → PResult α
  | eok : α → List Char → PResult α
  | cerr : PResult α
  | eerr : PResult α
deriving DecidableEq, Repr

def PResult.isErr : PResult α → Bool
  | .cerr => true
  | .eerr => true
  | _ => false

/-- The success view of a result: value and remaining input, if any. -/
def PResult.okv : PResult α → Option (α × List Char)
  | .cok a s => some (a, s)
  | .eok a s => some (a, s)
  | .cerr => none
  | .eerr => none

def P (α : Type) : Type := List Char → PResult α

def pureP (a : α) : P α := fun s => .eok a s

def bindP (p : P α) (f : α → P β) : P β := fun s =>
  match p s with
  | .cok a s' =>
    match f a s' with
    | .cok b s'' => .cok b s''
    | .eok b s'' => .cok b s''
    | .cerr => .cerr
    | .eerr => .cerr
  | .eok a s' => f a s'
  | .cerr => .cerr
  | .eerr => .eerr

def mapP (p : P α) (g : α → β) : P β := bindP p (fun a => pureP (g a))

/-- Sequencing that keeps the second value (combine's `with`). -/
def withP (p : P α) (q : P β) : P β := bindP p (fun _ => q)

/-- Sequencing that keeps the first value (combine's `skip`). -/
def skipP (p : P α) (q : P β) : P α := bindP p (fun a => mapP q (fun _ => a))

/-- Pairing (combine's tuple sequencing). -/
def andP (p : P α) (q : P β) : P (α × β) := bindP p (fun a => mapP q (fun b => (a, b)))

def orP (p : P α) (q : P α) : P α := fun s =>
  match p s with
  | .eerr => q s
  | r => r

def attemptP (p : P α) : P α := fun s =>
  match p s with
  | .cerr => .eerr
  | r => r

def optionalP (p : P α) : P (Option α) := fun s =>
  match p s with
  | .cok a s' => .cok (some a) s'
  | .eok a s' => .eok (some a) s'
  | .cerr => .cerr
  | .eerr => .eok none s

/-- Validation after a parse (combine's `and_then`); a rejected value is
a failure at the position reached by the inner parser. -/
def andThenP (p : P α) (f : α → Option β) : P β := fun s =>
  match p s with
  | .cok a s' =>
    match f a with
    | some b => .cok b s'
    | none => .cerr
  | .eok a s' =>
    match f a with
    | some b => .eok b s'
    | none => .eerr
  | .cerr => .cerr
  | .eerr => .eerr

def satisfyP (pred : Char → Bool) : P Char := fun s =>
  match s with
  | c :: cs => if pred c then .cok c cs else .eerr
  | [] => .eerr

def charP (c : Char) : P Char := satisfyP (fun x => x == c)

def oneOfP (l : List Char) : P Char := satisfyP (fun x => l.contains x)

/-- `many1` of a single-character class parser is maximal munch over the
class (combine's `repeat::many1(satisfy)`). -/
def many1Class (pred : Char → Bool) : P (List Char) := fun s =>
  match s with
  | c :: cs =>
    if pred c then .cok (c :: cs.takeWhile pred) (cs.dropWhile pred)
    else .eerr
  | [] => .eerr

/-- combine's `char::string`: consumes the literal character by
character, failing where the first mismatch occurs. -/
def stringP : List Char → P Unit
  | [] => pureP ()
  | c :: cs => withP (charP c) (stringP cs)

def valueP (p : P α) (b : β) : P β := withP p (pureP b)

/-! ## Character classes (ASCII, as code points) -/

/-- ASCII decimal digit (combine's `char::digit`). -/
def isDigitB (c : Char) : Bool := 48 ≤ c.toNat && c.toNat ≤ 57

/-- ASCII letter (combine's `char::letter` on the ASCII inputs of this
grammar). -/
def isAlphaB (c : Char) : Bool :=
  (65 ≤ c.toNat && c.toNat ≤ 90) || (97 ≤ c.toNat && c.toNat ≤ 122)

/-- ASCII letter or digit (combine's `char::alpha_num`). -/
def isAlphanumB (c : Char) : Bool := isDigitB c || isAlphaB c

/-- ASCII hex digit (combine's `char::hex_digit`). -/
def isHexDigitB (c : Char) : Bool :=
  isDigitB c || (97 ≤ c.toNat && c.toNat ≤ 102) || (65 ≤ c.toNat && c.toNat ≤ 70)

/-! ## Numeric text helpers -/

def natFromDigits (run : List Char) : Nat :=
  run.foldl (fun acc c => acc * 10 + (c.toNat - 48)) 0

def hexVal (c : Char) : Nat :=
  if isDigitB c then c.toNat - 48
  else if 97 ≤ c.toNat ∧ c.toNat ≤ 102 then c.toNat - 87
  else c.toNat - 55

def natFromHex (run : List Char) : Nat :=
  run.foldl (fun acc c => acc * 16 + hexVal c) 0

/-- `parse_int` from range.rs/event.rs: a run of decimal digits
validated against the numeric type's bound (2^16 or 2^32). -/
def parse_int (bound : Nat) : P Nat :=
  andThenP (many1Class isDigitB)
    (fun run => let v := natFromDigits run; if v < bound then some v else none)

def u16Bound : Nat := 65536
def u32Bound : Nat := 4294967296
def u32Max : Nat := 4294967295

/-! ## Device parser (src/src/drf/device.rs)

`parse_prop_symbol` maps the single qualifier character to the default
property of its family (the field payloads carry the family defaults,
which is what mod.rs's `parse` and its canonical-form tests require of
the qualifier-implied property). -/

def parse_prop_symbol : P Property :=
  orP (valueP (charP ':') (.Reading ReadingField.default))
  (orP (valueP (charP '?') (.Reading ReadingField.default))
  (orP (valueP (charP '_') (.Setting SettingField.default))
  (orP (valueP (charP '|') (.Status StatusField.default))
  (orP (valueP (charP '&') .Control)
  (orP (valueP (charP '@') (.Analog AnalogField.default))
  (orP (valueP (charP '$') (.Digital DigitalField.default))
       (valueP (charP '~') .Description)))))))

/-- The qualifier table of `parse_prop_symbol` as a plain function,
for stating theorems: each of the eight qualifier characters to its
default property, anything else to `none`. -/
def qualMap : Char → Option Property
  | ':' => some (.Reading ReadingField.default)
  | '?' => some (.Reading ReadingField.default)
  | '_' => some (.Setting SettingField.default)
  | '|' => some (.Status StatusField.default)
  | '&' => some .Control
  | '@' => some (.Analog AnalogField.default)
  | '$' => some (.Digital DigitalField.default)
  | '~' => some .Description
  | _ => none

/-- `valid_characters` of device.rs: `alpha_num` or one of `_-:<>;`. -/
def devChar (c : Char) : Bool :=
  isAlphanumB c || ['_', '-', ':', '<', '>', ';'].contains c

def and3P (p : P α) (q : P β) (r : P γ) : P (α × β × γ) :=
  bindP p (fun a => bindP q (fun b => mapP r (fun c => (a, b, c))))

def and4P (p : P α) (q : P β) (r : P γ) (t : P δ) : P (α × β × γ × δ) :=
  bindP p (fun a => bindP q (fun b => bindP r (fun c => mapP t (fun d => (a, b, c, d)))))

/-- The `parse_di` alternative of device.rs `parser`: `'0' qual digit+`. -/
def parse_di : P (String × Property) :=
  mapP (and3P (charP '0') parse_prop_symbol (many1Class isDigitB))
    (fun (character, prop, device) =>
      (String.mk (character :: ':' :: device), prop))

/-- The `parse_string` alternative of device.rs `parser`:
`letter qual devchar+`. -/
def parse_string : P (String × Property) :=
  mapP (and3P (satisfyP isAlphaB) parse_prop_symbol (many1Class devChar))
    (fun (character, prop, device) =>
      (String.mk (character :: ':' :: device), prop))

/-- device.rs `parser`: `('0' qual digit+) | (letter qual devchar+)`,
storing the canonical text `<first>:<rest>`. -/
def parseDevice : P (String × Property) :=
  orP parse_di parse_string

/-! ## Property and field lookup (src/src/drf/prop_field.rs) -/

def lookupTbl (v : String) : List (String × α) → Option α
  | [] => none
  | (k, a) :: rest => if v = k then some a else lookupTbl v rest

def READING_FIELDS : List (String × ReadingField) :=
  [("COMMON", .Scaled), ("PRIMARY", .Primary), ("RAW", .Raw),
   ("SCALED", .Scaled), ("VOLTS", .Primary)]

def SETTING_FIELDS : List (String × SettingField) :=
  [("COMMON", .Scaled), ("PRIMARY", .Primary), ("RAW", .Raw),
   ("SCALED", .Scaled), ("VOLTS", .Primary)]

def STATUS_FIELDS : List (String × StatusField) :=
  [("ALL", .All), ("EXTENDED_TEXT", .ExtText), ("ON", .On),
   ("POSITIVE", .Positive), ("RAMP", .Ramp), ("RAW", .Raw),
   ("READY", .Ready), ("REMOTE", .Remote), ("TEXT", .Text)]

def ANALOG_FIELDS : List (String × AnalogField) :=
  [("ABORT", .Abort), ("ABORT_INHIBIT", .AbortInhibit),
   ("ALARM_ENABLE", .Enable), ("ALARM_FTD", .FTD),
   ("ALARM_STATUS", .Status), ("ALL", .All), ("ENABLE", .Enable),
   ("FLAGS", .Flags), ("FTD", .FTD), ("MAX", .Max), ("MAXIMUM", .Max),
   ("MIN", .Min), ("MINIMUM", .Min), ("NOM", .Nom), ("NOMINAL", .Nom),
   ("RAW", .Raw), ("RAW_MAX", .RawMax), ("RAWMAX", .RawMax),
   ("RAW_MIN", .RawMin), ("RAWMIN", .RawMin), ("RAW_NOM", .RawNom),
   ("RAWNOM", .RawNom), ("RAW_TOL", .RawTol), ("RAWTOL", .RawTol),
   ("STATUS", .Status), ("TEXT", .Text), ("TOL", .Tol),
   ("TOLERANCE", .Tol), ("TRIES_NEEDED", .TriesNeeded),
   ("TRIES_NOW", .TriesNow)]

def DIGITAL_FIELDS : List (String × DigitalField) :=
  [("ABORT", .Abort), ("ABORT_INHIBIT", .AbortInhibit),
   ("ALARM_ENABLE", .Enable), ("ALARM_FTD", .FTD),
   ("ALARM_STATUS", .Status), ("ALL", .All), ("ENABLE", .Enable),
   ("FLAGS", .Flags), ("FTD", .FTD), ("NOM", .Nom), ("NOMINAL", .Nom),
   ("MASK", .Mask), ("RAW", .Raw), ("STATUS", .Status), ("TEXT", .Text),
   ("TRIES_NEEDED", .TriesNeeded), ("TRIES_NOW", .TriesNow)]

def PROPERTIES : List (String × Property) :=
  [("AA", .Analog AnalogField.default),
   ("ALARM_LIST_NAME", .AlarmList),
   ("ANALOG_ALARM", .Analog AnalogField.default),
   ("ANALOG", .Analog AnalogField.default),
   ("BASIC_CONTROL", .Control),
   ("BASIC_STATUS", .Status StatusField.default),
   ("CONTROL", .Control),
   ("CTRL", .Control),
   ("DA", .Digital DigitalField.default),
   ("DESC", .Description),
   ("DESCRIPTION", .Description),
   ("DIGITAL_ALARM", .Digital DigitalField.default),
   ("DIGITAL", .Digital DigitalField.default),
   ("INDEX", .Index),
   ("LNGNAM", .LongName),
   ("LONG_NAME", .LongName),
   ("LSTNAM", .AlarmList),
   ("PRALNM", .AlarmList),
   ("PRANAB", .Analog AnalogField.default),
   ("PRBCTL", .Control),
   ("PRBSTS", .Status StatusField.default),
   ("PRDABL", .Digital DigitalField.default),
   ("PRDESC", .Description),
   ("PRLNAM", .LongName),
   ("PRREAD", .Reading ReadingField.default),
   ("PRSET", .Setting SettingField.default),
   ("READ", .Reading ReadingField.default),
   ("READING", .Reading ReadingField.default),
   ("SET", .Setting SettingField.default),
   ("SETTING", .Setting SettingField.default),
   ("STATUS", .Status StatusField.default),
   ("STS", .Status StatusField.default)]

/-- The name characters of the `.NAME` suffix: letters or underscore. -/
def isNameChar (c : Char) : Bool := isAlphaB c || c == '_'

def upperName (run : List Char) : String := String.mk (run.map Char.toUpper)

/-- The compatibility match of prop_field.rs `parse_property`: a
Reading qualifier accepts any property, every other family only
accepts its own family. -/
def compatible : Property → Property → Bool
  | .Reading _, _ => true
  | .Setting _, .Setting _ => true
  | .Status _, .Status _ => true
  | .Analog _, .Analog _ => true
  | .Digital _, .Digital _ => true
  | .Control, .Control => true
  | .Description, .Description => true
  | .Index, .Index => true
  | .LongName, .LongName => true
  | .AlarmList, .AlarmList => true
  | _, _ => false

/-- Specification-side tag of a property's family (used to phrase the
claims' "same family" in theorem statements). -/
def familyTag : Property → Nat
  | .Reading _ => 0
  | .Setting _ => 1
  | .Status _ => 2
  | .Control => 3
  | .Analog _ => 4
  | .Digital _ => 5
  | .Description => 6
  | .Index => 7
  | .LongName => 8
  | .AlarmList => 9

/-- Specification-side predicate: is the property in the Reading
family? -/
def isReadingProp : Property → Bool
  | .Reading _ => true
  | _ => false

/-- prop_field.rs `parse_property`: `.NAME` looked up (case-folded) in
the property table, then checked against the qualifier property. -/
def parse_property (qual_prop : Property) : P Property :=
  withP (charP '.')
    (andThenP (many1Class isNameChar)
      (fun run =>
        match lookupTbl (upperName run) PROPERTIES with
        | some property =>
          if compatible qual_prop property then some property else none
        | none => none))

/-- prop_field.rs `parse_field`: `.NAME` looked up (case-folded) in the
field table selected by `use_prop`'s family; the fieldless families
reject every name. -/
def parse_field (use_prop : Property) : P Property :=
  withP (charP '.')
    (andThenP (many1Class isNameChar)
      (fun run =>
        let v := upperName run
        match use_prop with
        | .Reading _ => (lookupTbl v READING_FIELDS).map .Reading
        | .Setting _ => (lookupTbl v SETTING_FIELDS).map .Setting
        | .Status _ => (lookupTbl v STATUS_FIELDS).map .Status
        | .Analog _ => (lookupTbl v ANALOG_FIELDS).map .Analog
        | .Digital _ => (lookupTbl v DIGITAL_FIELDS).map .Digital
        | .Control | .Description | .Index | .LongName | .AlarmList => none))

/-! ## Range parser (src/src/drf/range.rs) -/

/-- The `one_element` case of range.rs `parse_array_range`. -/
def array_one_element : P Range :=
  mapP (skipP (parse_int u16Bound) (charP ']'))
    (fun v => Range.Array v (some v))

/-- The validation in the `and_then` of `parse_array_range`'s
`multi_element` case. -/
def array_validate : Option Nat × Option Nat → Option Range
  | (none, none) => some Range.Full
  | (some 0, none) => some Range.Full
  | (some s, none) => some (Range.Array s none)
  | (none, some e) => some (Range.Array 0 (some e))
  | (some s, some e) =>
    if s ≤ e then some (Range.Array s (some e)) else none

/-- The `multi_element` case of range.rs `parse_array_range`. -/
def array_multi_element : P Range :=
  andThenP
    (andP (skipP (optionalP (parse_int u16Bound)) (charP ':'))
          (skipP (optionalP (parse_int u16Bound)) (charP ']')))
    array_validate

/-- range.rs `parse_array_range`. -/
def parse_array_range : P Range :=
  withP (charP '[')
    (orP (valueP (charP ']') Range.Full)
      (orP (attemptP array_one_element) (attemptP array_multi_element)))

/-- The `one_element` case of range.rs `parse_byte_range`. -/
def byte_one_element : P Range :=
  mapP (skipP (parse_int u32Bound) (charP '}'))
    (fun v => Range.Raw v (some 1))

/-- The validation in the `and_then` of `parse_byte_range`'s
`multi_element` case. -/
def byte_validate : Option Nat × Option Nat → Option Range
  | (none, none) => some Range.Full
  | (some 0, none) => some Range.Full
  | (some o, none) => some (Range.Raw o none)
  | (none, some l) =>
    if l > 0 then some (Range.Raw 0 (some l)) else none
  | (some o, some l) =>
    if l > 0 then
      if o ≤ u32Max - l then some (Range.Raw o (some l)) else none
    else none

/-- The `multi_element` case of range.rs `parse_byte_range`. -/
def byte_multi_element : P Range :=
  andThenP
    (andP (skipP (optionalP (parse_int u32Bound)) (charP ':'))
          (skipP (optionalP (parse_int u32Bound)) (charP '}')))
    byte_validate

/-- range.rs `parse_byte_range`. -/
def parse_byte_range : P Range :=
  withP (charP '{')
    (orP (valueP (charP '}') Range.Full)
      (orP (attemptP byte_one_element) (attemptP byte_multi_element)))

/-- range.rs `parser`: array range, byte range, or the collapsed
default `Array{0, Some(0)}`. -/
def parseRange : P Range :=
  orP parse_array_range
    (orP parse_byte_range (pureP (Range.Array 0 (some 0))))

/-- The range invariant guaranteed by a successful parse: array start
at most end when both bounds are present; raw length at least 1 when
present, with offset + length at most 2^32 (the single-element form
`{u32::MAX}` attains exactly 2^32, one past `u32::MAX`). -/
def RangeInv : Range → Prop
  | .Full => True
  | .Array s oe => ∀ e ∈ oe, s ≤ e
  | .Raw o ol => ∀ l ∈ ol, 1 ≤ l ∧ o + l ≤ u32Max + 1

/-! ## Event parser (src/src/drf/event.rs) -/

/-- event.rs `scale_rate`: unit-scaled microsecond period with
saturation at the `u32` extremes. -/
def scale_rate (v : Nat) (suf : Option Char) : Nat :=
  match suf with
  | some 's' | some 'S' =>
    if v > u32Max / 1000000 then u32Max else v * 1000000
  | some 'm' | some 'M' | none =>
    if v > u32Max / 1000 then u32Max else v * 1000
  | some 'u' | some 'U' => v
  | some 'k' | some 'K' =>
    if v = 0 then u32Max else if v > 1000 then 1 else 1000 / v
  | some 'h' | some 'H' =>
    if v = 0 then u32Max else if v > 1000000 then 1 else 1000000 / v
  | some _ => 0

/-- event.rs `parse_clock_event`: 1+ hex digits validated as a `u16`. -/
def parse_clock_event : P Nat :=
  andThenP (many1Class isHexDigitB)
    (fun run => let v := natFromHex run; if v < u16Bound then some v else none)

/-- event.rs `parse_time_freq`. -/
def parse_time_freq : P Nat :=
  mapP (andP (parse_int u32Bound) (optionalP (oneOfP "sSmMuUkKhH".toList)))
    (fun (val, suf) => scale_rate val suf)

/-- event.rs `parse_periodic_imm`. -/
def parse_periodic_imm : P Bool :=
  mapP
    (optionalP
      (withP (charP ',')
        (andThenP (many1Class isAlphaB)
          (fun run =>
            match upperName run with
            | "TRUE" => some true
            | "T" => some true
            | "FALSE" => some false
            | "F" => some false
            | _ => none))))
    (fun v => v.getD true)

/-- event.rs `parse_ops`: longest comparison tokens first. -/
def parse_ops : P StateOp :=
  orP (valueP (attemptP (stringP "<=".toList)) StateOp.LEq)
  (orP (valueP (attemptP (stringP ">=".toList)) StateOp.GEq)
  (orP (valueP (attemptP (stringP "!=".toList)) StateOp.NEq)
  (orP (valueP (charP '>') StateOp.GT)
  (orP (valueP (charP '<') StateOp.LT)
  (orP (valueP (charP '=') StateOp.Eq)
       (valueP (charP '*') StateOp.All))))))

/-- event.rs `parse_periodic_rate`. -/
def parse_periodic_rate : P (Nat × Bool) :=
  mapP (andP (optionalP (withP (charP ',') parse_time_freq)) parse_periodic_imm)
    (fun (r, i) => (r.getD 1000000, i))

/-- event.rs `parse_clock_type`. -/
def parse_clock_type : P ClockType :=
  withP (charP ',')
    (orP (valueP (oneOfP "eE".toList) ClockType.Either)
      (orP (valueP (oneOfP "hH".toList) ClockType.Hardware)
           (valueP (oneOfP "sS".toList) ClockType.Software)))

/-- The `parse_never` alternative of event.rs `parser`. -/
def parse_never : P Event := valueP (oneOfP "nN".toList) Event.Never

/-- The `parse_immediate` alternative of event.rs `parser`. -/
def parse_immediate : P Event := valueP (oneOfP "iI".toList) Event.Immediate

/-- The `parse_periodic` alternative of event.rs `parser`. -/
def parse_periodic : P Event :=
  mapP (withP (oneOfP "pP".toList) parse_periodic_rate)
    (fun (r, i) => Event.Periodic r i false)

/-- The `parse_periodic_filt` alternative of event.rs `parser`. -/
def parse_periodic_filt : P Event :=
  mapP (withP (oneOfP "qQ".toList) parse_periodic_rate)
    (fun (r, i) => Event.Periodic r i true)

/-- The `parse_clock` alternative of event.rs `parser`. -/
def parse_clock : P Event :=
  mapP
    (withP (oneOfP "eE".toList)
      (and3P (withP (charP ',') parse_clock_event)
             (optionalP parse_clock_type)
             (optionalP (withP (charP ',') parse_time_freq))))
    (fun (event, ct, r) =>
      Event.Clock event (ct.getD ClockType.default) (r.getD 0))

/-- The `parse_state` alternative of event.rs `parser`. -/
def parse_state : P Event :=
  mapP
    (withP (oneOfP "sS".toList)
      (and4P (withP (charP ',') (parse_int u32Bound))
             (withP (charP ',') (parse_int u16Bound))
             (withP (charP ',') parse_time_freq)
             (withP (charP ',') parse_ops)))
    (fun (device, value, delay, expr) =>
      Event.State device value delay expr)

/-- The alternation of the six event bodies tried after `@`. -/
def eventBody : P Event :=
  orP parse_never
  (orP parse_immediate
  (orP parse_periodic
  (orP parse_periodic_filt
  (orP parse_clock parse_state))))

/-- event.rs `parser`: `@` commits to the event grammar; without `@`
the event defaults. -/
def parseEvent : P Event :=
  orP (withP (charP '@') eventBody) (pureP Event.Default)

/-! ## Top-level request parser (src/src/drf/mod.rs `parse`) -/

/-- The composed pipeline of mod.rs `parse`: device, then an optional
property override (defaulting to the qualifier-implied property), then
range, then event. -/
def requestCore : P Request :=
  bindP parseDevice
    (fun dq =>
      mapP
        (and3P
          (mapP (optionalP (parse_property dq.2)) (fun v => v.getD dq.2))
          parseRange
          parseEvent)
        (fun (property, range, event) =>
          { device := dq.1, property, range, event }))

/-- mod.rs `parse`: run the pipeline and drop the unconsumed remainder
(`p.parse(drf)?.0`). -/
def parseRequest (s : String) : Option Request :=
  match requestCore s.toList with
  | .cok r _ => some r
  | .eok r _ => some r
  | .cerr => none
  | .eerr => none

/-- The head of `rest`, if any, fails `pred` (maximal-munch stop). -/
def headFails (pred : Char → Bool) : List Char → Prop
  | [] => True
  | c :: _ => pred c = false

/-- Lifting a continuation result over prior consumption (the flag
arithmetic of `bindP` after a consuming first part). -/
def liftC : PResult α → PResult α
  | .cok a s => .cok a s
  | .eok a s => .cok a s
  | .cerr => .cerr
  | .eerr => .cerr

/-! ## Evaluation lemmas for the combinator core -/

theorem takeWhile_run {pred : Char → Bool} {run rest : List Char}
    (h1 : ∀ c ∈ run, pred c = true) (h2 : headFails pred rest) :
    (run ++ rest).takeWhile pred = run := by
  induction run with
  | nil =>
    cases rest with
    | nil => rfl
    | cons c cs => simp [List.takeWhile_cons, h2, headFails] at h2 ⊢; simp [h2]
  | cons c cs ih =>
    have hc : pred c = true := h1 c (by simp)
    simp [List.takeWhile_cons, hc]
    exact ih (fun d hd => h1 d (by simp [hd]))

theorem dropWhile_run {pred : Char → Bool} {run rest : List Char}
    (h1 : ∀ c ∈ run, pred c = true) (h2 : headFails pred rest) :
    (run ++ rest).dropWhile pred = rest := by
  induction run with
  | nil =>
    cases rest with
    | nil => rfl
    | cons c cs => simp [List.dropWhile_cons, headFails] at h2 ⊢; simp [h2]
  | cons c cs ih =>
    have hc : pred c = true := h1 c (by simp)
    simp [List.dropWhile_cons, hc]
    exact ih (fun d hd => h1 d (by simp [hd]))

theorem many1Class_run {pred : Char → Bool} {run rest : List Char}
    (hne : run ≠ []) (h1 : ∀ c ∈ run, pred c = true)
    (h2 : headFails pred rest) :
    many1Class pred (run ++ rest) = .cok run rest := by
  cases run with
  | nil => exact absurd rfl hne
  | cons c cs =>
    have hc : pred c = true := h1 c (by simp)
    have h1' : ∀ d ∈ cs, pred d = true := fun d hd => h1 d (by simp [hd])
    simp [many1Class, hc, takeWhile_run h1' h2, dropWhile_run h1' h2]

theorem many1Class_eerr {pred : Char → Bool} {c : Char}
    (hc : pred c = false) (rest : List Char) :
    many1Class pred (c :: rest) = .eerr := by
  simp [many1Class, hc]

theorem many1Class_eerr_of_headFails {pred : Char → Bool} {s : List Char}
    (h : headFails pred s) : many1Class pred s = .eerr := by
  cases s with
  | nil => rfl
  | cons c cs => exact many1Class_eerr h cs

theorem satisfyP_cok {pred : Char → Bool} {c : Char}
    (hc : pred c = true) (rest : List Char) :
    satisfyP pred (c :: rest) = .cok c rest := by
  simp [satisfyP, hc]

theorem satisfyP_eerr {pred : Char → Bool} {c : Char}
    (hc : pred c = false) (rest : List Char) :
    satisfyP pred (c :: rest) = .eerr := by
  simp [satisfyP, hc]

theorem charP_cok (c : Char) (rest : List Char) :
    charP c (c :: rest) = .cok c rest := by
  simp [charP, satisfyP]

theorem charP_eerr {c d : Char} (h : (d == c) = false) (rest : List Char) :
    charP c (d :: rest) = .eerr := by
  simp [charP, satisfyP, h]

theorem bindP_cok {p : P α} {f : α → P β} {s s' : List Char} {a : α}
    (h : p s = .cok a s') : bindP p f s = liftC (f a s') := by
  simp [bindP, h]; cases f a s' <;> rfl

theorem bindP_eok {p : P α} {f : α → P β} {s s' : List Char} {a : α}
    (h : p s = .eok a s') : bindP p f s = f a s' := by
  simp [bindP, h]

theorem bindP_cerr {p : P α} {f : α → P β} {s : List Char}
    (h : p s = .cerr) : bindP p f s = .cerr := by
  simp [bindP, h]

theorem bindP_eerr {p : P α} {f : α → P β} {s : List Char}
    (h : p s = .eerr) : bindP p f s = .eerr := by
  simp [bindP, h]

theorem orP_eerr {p q : P α} {s : List Char}
    (h : p s = .eerr) : orP p q s = q s := by
  simp [orP, h]

theorem orP_pass {p q : P α} {s : List Char} {r : PResult α}
    (h : p s = r) (hr : r ≠ .eerr) : orP p q s = r := by
  subst h; unfold orP; cases hp : p s <;> simp_all

theorem optionalP_cok {p : P α} {s s' : List Char} {a : α}
    (h : p s = .cok a s') : optionalP p s = .cok (some a) s' := by
  simp [optionalP, h]

theorem optionalP_cerr {p : P α} {s : List Char}
    (h : p s = .cerr) : optionalP p s = .cerr := by
  simp [optionalP, h]

theorem optionalP_eerr {p : P α} {s : List Char}
    (h : p s = .eerr) : optionalP p s = .eok none s := by
  simp [optionalP, h]

theorem attemptP_pass {p : P α} {s : List Char} {r : PResult α}
    (h : p s = r) (hr : r ≠ .cerr) : attemptP p s = r := by
  subst h; unfold attemptP; cases hp : p s <;> simp_all

theorem attemptP_cerr {p : P α} {s : List Char}
    (h : p s = .cerr) : attemptP p s = .eerr := by
  simp [attemptP, h]

theorem andThenP_cok {p : P α} {f : α → Option β} {s s' : List Char} {a : α} {b : β}
    (h : p s = .cok a s') (hf : f a = some b) : andThenP p f s = .cok b s' := by
  simp [andThenP, h, hf]

theorem andThenP_cok_none {p : P α} {f : α → Option β} {s s' : List Char} {a : α}
    (h : p s = .cok a s') (hf : f a = none) : andThenP p f s = .cerr := by
  simp [andThenP, h, hf]

theorem mapP_cok {p : P α} {g : α → β} {s s' : List Char} {a : α}
    (h : p s = .cok a s') : mapP p g s = .cok (g a) s' := by
  simp [mapP, bindP, h, pureP]

theorem mapP_cerr {p : P α} {g : α → β} {s : List Char}
    (h : p s = .cerr) : mapP p g s = .cerr := by
  simp [mapP, bindP, h]

theorem mapP_eerr {p : P α} {g : α → β} {s : List Char}
    (h : p s = .eerr) : mapP p g s = .eerr := by
  simp [mapP, bindP, h]

theorem withP_cok {p : P α} {q : P β} {s s' : List Char} {a : α}
    (h : p s = .cok a s') : withP p q s = liftC (q s') := by
  unfold withP; exact bindP_cok h

theorem oneOfP_eerr {l : List Char} {c : Char}
    (h : l.contains c = false) (rest : List Char) :
    oneOfP l (c :: rest) = .eerr := by
  have h' : c ∉ l := by simpa using h
  simp [oneOfP, satisfyP, h']

theorem oneOfP_cok {l : List Char} {c : Char}
    (h : l.contains c = true) (rest : List Char) :
    oneOfP l (c :: rest) = .cok c rest := by
  have h' : c ∈ l := by simpa using h
  simp [oneOfP, satisfyP, h']

theorem valueP_oneOf_eerr {l : List Char} {c : Char} {β : Type} (b : β)
    (h : l.contains c = false) (rest : List Char) :
    valueP (oneOfP l) b (c :: rest) = .eerr := by
  unfold valueP withP
  exact bindP_eerr (oneOfP_eerr h rest)

theorem mapP_eok {p : P α} {g : α → β} {s s' : List Char} {a : α}
    (h : p s = .eok a s') : mapP p g s = .eok (g a) s' := by
  simp [mapP, bindP, h, pureP]

theorem mapP_withP_oneOf_eerr {l : List Char} {c : Char} {β γ : Type}
    (h : l.contains c = false) (q : P β) (g : β → γ) (rest : List Char) :
    mapP (withP (oneOfP l) q) g (c :: rest) = .eerr :=
  mapP_eerr (bindP_eerr (oneOfP_eerr h rest))

theorem valueP_charP_eerr {c d : Char} {β : Type} (b : β)
    (h : (d == c) = false) (rest : List Char) :
    valueP (charP c) b (d :: rest) = .eerr := by
  unfold valueP withP
  exact bindP_eerr (charP_eerr h rest)

theorem digitB_not_alphaB {c : Char} (h : isDigitB c = true) :
    isAlphaB c = false := by
  simp [isDigitB, isAlphaB] at *
  omega

theorem alphaB_ne_zero {c : Char} (h : isAlphaB c = true) : (c == '0') = false := by
  refine beq_eq_false_iff_ne.mpr (fun he => ?_)
  subst he
  exact absurd h (by decide)

theorem parse_prop_symbol_cok {qual : Char} {prop : Property}
    (hq : qualMap qual = some prop) (rest : List Char) :
    parse_prop_symbol (qual :: rest) = .cok prop rest := by
  unfold qualMap at hq
  split at hq <;> first
    | (injection hq with h; subst h; rfl)
    | simp at hq

theorem parse_prop_symbol_eerr {qual : Char}
    (hq : qualMap qual = none) (rest : List Char) :
    parse_prop_symbol (qual :: rest) = .eerr := by
  have mk : ∀ c : Char, qual ≠ c → (qual == c) = false :=
    fun c h => beq_eq_false_iff_ne.mpr h
  have h1 : (qual == ':') = false :=
    mk _ (fun h => by subst h; simp [qualMap] at hq)
  have h2 : (qual == '?') = false :=
    mk _ (fun h => by subst h; simp [qualMap] at hq)
  have h3 : (qual == '_') = false :=
    mk _ (fun h => by subst h; simp [qualMap] at hq)
  have h4 : (qual == '|') = false :=
    mk _ (fun h => by subst h; simp [qualMap] at hq)
  have h5 : (qual == '&') = false :=
    mk _ (fun h => by subst h; simp [qualMap] at hq)
  have h6 : (qual == '@') = false :=
    mk _ (fun h => by subst h; simp [qualMap] at hq)
  have h7 : (qual == '$') = false :=
    mk _ (fun h => by subst h; simp [qualMap] at hq)
  have h8 : (qual == '~') = false :=
    mk _ (fun h => by subst h; simp [qualMap] at hq)
  unfold parse_prop_symbol
  rw [orP_eerr (valueP_charP_eerr _ h1 rest),
      orP_eerr (valueP_charP_eerr _ h2 rest),
      orP_eerr (valueP_charP_eerr _ h3 rest),
      orP_eerr (valueP_charP_eerr _ h4 rest),
      orP_eerr (valueP_charP_eerr _ h5 rest),
      orP_eerr (valueP_charP_eerr _ h6 rest),
      orP_eerr (valueP_charP_eerr _ h7 rest)]
  exact valueP_charP_eerr _ h8 rest

theorem parse_di_cok {qual : Char} {prop : Property} {body rest : List Char}
    (hq : qualMap qual = some prop) (hne : body ≠ [])
    (hb : ∀ c ∈ body, isDigitB c = true) (hr : headFails isDigitB rest) :
    parse_di ('0' :: qual :: body ++ rest) =
      .cok (String.mk ('0' :: ':' :: body), prop) rest := by
  have hand : and3P (charP '0') parse_prop_symbol (many1Class isDigitB)
      ('0' :: qual :: body ++ rest) = .cok ('0', prop, body) rest := by
    refine Eq.trans (bindP_cok (charP_cok '0' (qual :: (body ++ rest)))) ?_
    refine Eq.trans (congrArg liftC
      (Eq.trans (bindP_cok (parse_prop_symbol_cok hq (body ++ rest)))
        (congrArg liftC (mapP_cok (many1Class_run hne hb hr))))) ?_
    rfl
  exact mapP_cok hand

theorem parse_string_cok {first qual : Char} {prop : Property}
    {body rest : List Char}
    (hf : isAlphaB first = true) (hq : qualMap qual = some prop)
    (hne : body ≠ []) (hb : ∀ c ∈ body, devChar c = true)
    (hr : headFails devChar rest) :
    parse_string (first :: qual :: body ++ rest) =
      .cok (String.mk (first :: ':' :: body), prop) rest := by
  have hand : and3P (satisfyP isAlphaB) parse_prop_symbol (many1Class devChar)
      (first :: qual :: body ++ rest) = .cok (first, prop, body) rest := by
    refine Eq.trans (bindP_cok (satisfyP_cok hf (qual :: (body ++ rest)))) ?_
    refine Eq.trans (congrArg liftC
      (Eq.trans (bindP_cok (parse_prop_symbol_cok hq (body ++ rest)))
        (congrArg liftC (mapP_cok (many1Class_run hne hb hr))))) ?_
    rfl
  exact mapP_cok hand

theorem parse_di_eerr_alpha {first : Char} (hf : isAlphaB first = true)
    (rest : List Char) : parse_di (first :: rest) = .eerr := by
  unfold parse_di and3P
  exact mapP_eerr (bindP_eerr (charP_eerr (alphaB_ne_zero hf) rest))

theorem parseDevice_string_cok {first qual : Char} {prop : Property}
    {body rest : List Char}
    (hf : isAlphaB first = true) (hq : qualMap qual = some prop)
    (hne : body ≠ []) (hb : ∀ c ∈ body, devChar c = true)
    (hr : headFails devChar rest) :
    parseDevice (first :: qual :: body ++ rest) =
      .cok (String.mk (first :: ':' :: body), prop) rest := by
  refine Eq.trans (orP_eerr (parse_di_eerr_alpha hf (qual :: (body ++ rest)))) ?_
  exact parse_string_cok hf hq hne hb hr

/-! ## Inversion lemmas (what a successful parse implies) -/

theorem bindP_okv_inv {p : P α} {f : α → P β} {s r : List Char} {b : β}
    (h : (bindP p f s).okv = some (b, r)) :
    ∃ a s₁, (p s).okv = some (a, s₁) ∧ (f a s₁).okv = some (b, r) := by
  cases hp : p s
  case cok a s₁ =>
    rw [bindP_cok hp] at h
    refine ⟨a, s₁, rfl, ?_⟩
    cases hf : f a s₁ <;> rw [hf] at h <;>
      simp [liftC, PResult.okv] at h ⊢ <;> exact h
  case eok a s₁ =>
    rw [bindP_eok hp] at h
    exact ⟨a, s₁, rfl, h⟩
  case cerr => rw [bindP_cerr hp] at h; simp [PResult.okv] at h
  case eerr => rw [bindP_eerr hp] at h; simp [PResult.okv] at h

theorem pureP_okv_inv {a b : α} {s r : List Char}
    (h : (pureP a s).okv = some (b, r)) : b = a ∧ r = s := by
  simp [pureP, PResult.okv] at h
  exact ⟨h.1.symm, h.2.symm⟩

theorem mapP_okv_inv {p : P α} {g : α → β} {s r : List Char} {b : β}
    (h : (mapP p g s).okv = some (b, r)) :
    ∃ a, (p s).okv = some (a, r) ∧ b = g a := by
  obtain ⟨a, s₁, hp, hpure⟩ := bindP_okv_inv h
  obtain ⟨hb, hr⟩ := pureP_okv_inv hpure
  exact ⟨a, by rw [hp, hr], hb⟩

theorem withP_okv_inv {p : P α} {q : P β} {s r : List Char} {b : β}
    (h : (withP p q s).okv = some (b, r)) :
    ∃ a s₁, (p s).okv = some (a, s₁) ∧ (q s₁).okv = some (b, r) :=
  bindP_okv_inv h

theorem skipP_okv_inv {p : P α} {q : P β} {s r : List Char} {a : α}
    (h : (skipP p q s).okv = some (a, r)) :
    ∃ s₁, (p s).okv = some (a, s₁) := by
  obtain ⟨a', s₁, hp, hq⟩ := bindP_okv_inv h
  obtain ⟨b, hqb, hab⟩ := mapP_okv_inv hq
  exact ⟨s₁, by rw [hp, hab]⟩

theorem andP_okv_inv {p : P α} {q : P β} {s r : List Char} {a : α} {b : β}
    (h : (andP p q s).okv = some ((a, b), r)) :
    ∃ s₁, (p s).okv = some (a, s₁) ∧ (q s₁).okv = some (b, r) := by
  obtain ⟨a', s₁, hp, hq⟩ := bindP_okv_inv h
  obtain ⟨b', hqb, hab⟩ := mapP_okv_inv hq
  obtain ⟨h1, h2⟩ := Prod.mk.injEq .. ▸ hab
  exact ⟨s₁, by rw [hp, h1], by rw [hqb, h2]⟩

theorem orP_okv_inv {p q : P α} {s : List Char} {v : α × List Char}
    (h : (orP p q s).okv = some v) :
    (p s).okv = some v ∨ (p s = .eerr ∧ (q s).okv = some v) := by
  unfold orP at h
  cases hp : p s <;> rw [hp] at h
  case cok => exact Or.inl h
  case eok => exact Or.inl h
  case cerr => simp [PResult.okv] at h
  case eerr => exact Or.inr ⟨rfl, h⟩

theorem attemptP_okv_inv {p : P α} {s : List Char} {v : α × List Char}
    (h : (attemptP p s).okv = some v) : (p s).okv = some v := by
  unfold attemptP at h
  cases hp : p s <;> rw [hp] at h <;> simp [PResult.okv] at h ⊢ <;> simp [h]

theorem optionalP_okv_inv {p : P α} {s r : List Char} {v : Option α}
    (h : (optionalP p s).okv = some (v, r)) :
    (v = none ∧ r = s) ∨ ∃ a, v = some a ∧ (p s).okv = some (a, r) := by
  unfold optionalP at h
  cases hp : p s <;> rw [hp] at h <;> simp [PResult.okv] at h
  case cok a s₁ =>
    exact Or.inr ⟨a, h.1.symm, by simp [PResult.okv, h.2]⟩
  case eok a s₁ =>
    exact Or.inr ⟨a, h.1.symm, by simp [PResult.okv, h.2]⟩
  case eerr => exact Or.inl ⟨h.1.symm, h.2.symm⟩

theorem andThenP_okv_inv {p : P α} {f : α → Option β} {s r : List Char} {b : β}
    (h : (andThenP p f s).okv = some (b, r)) :
    ∃ a, (p s).okv = some (a, r) ∧ f a = some b := by
  unfold andThenP at h
  cases hp : p s <;> rw [hp] at h <;> dsimp only at h
  case cok a s₁ =>
    cases hf : f a <;> rw [hf] at h <;> simp [PResult.okv] at h
    exact ⟨a, by simp [PResult.okv, h.2], by rw [hf, h.1]⟩
  case eok a s₁ =>
    cases hf : f a <;> rw [hf] at h <;> simp [PResult.okv] at h
    exact ⟨a, by simp [PResult.okv, h.2], by rw [hf, h.1]⟩
  case cerr => simp [PResult.okv] at h
  case eerr => simp [PResult.okv] at h

theorem valueP_okv_inv {p : P α} {b₀ : β} {s r : List Char} {b : β}
    (h : (valueP p b₀ s).okv = some (b, r)) : b = b₀ := by
  unfold valueP withP at h
  obtain ⟨a, s₁, hp, hpure⟩ := bindP_okv_inv h
  exact (pureP_okv_inv hpure).1

theorem parse_int_okv_bound {bound : Nat} {s r : List Char} {v : Nat}
    (h : (parse_int bound s).okv = some (v, r)) : v < bound := by
  obtain ⟨run, hrun, hf⟩ := andThenP_okv_inv h
  by_cases hb : natFromDigits run < bound
  · simp [hb] at hf
    rw [← hf]
    exact hb
  · simp [hb] at hf

theorem skip_opt_int_okv_bound {bound : Nat} {c : Char} {s r : List Char}
    {ov : Option Nat}
    (h : (skipP (optionalP (parse_int bound)) (charP c) s).okv = some (ov, r)) :
    ∀ v ∈ ov, v < bound := by
  intro v hv
  obtain ⟨s₁, hopt⟩ := skipP_okv_inv h
  rcases optionalP_okv_inv hopt with ⟨hnone, -⟩ | ⟨a, hsome, hint⟩
  · subst hnone; simp at hv
  · subst hsome
    simp at hv
    subst hv
    exact parse_int_okv_bound hint

/-! ## Forward evaluation helpers for the range grammar -/

theorem andThenP_eerr {p : P α} {f : α → Option β} {s : List Char}
    (h : p s = .eerr) : andThenP p f s = .eerr := by
  simp [andThenP, h]

theorem andThenP_cerr {p : P α} {f : α → Option β} {s : List Char}
    (h : p s = .cerr) : andThenP p f s = .cerr := by
  simp [andThenP, h]

theorem skipP_eval_cok {p : P α} {q : P β} {s s₁ r : List Char} {a : α} {b : β}
    (hp : p s = .cok a s₁) (hq : q s₁ = .cok b r) : skipP p q s = .cok a r :=
  Eq.trans (bindP_cok hp)
    (Eq.trans (congrArg liftC (mapP_cok hq)) rfl)

theorem skipP_eval_cok_qeerr {p : P α} {q : P β} {s s₁ : List Char} {a : α}
    (hp : p s = .cok a s₁) (hq : q s₁ = .eerr) : skipP p q s = .cerr :=
  Eq.trans (bindP_cok hp)
    (Eq.trans (congrArg liftC (mapP_eerr hq)) rfl)

theorem skipP_eval_cerr {p : P α} {q : P β} {s : List Char}
    (hp : p s = .cerr) : skipP p q s = .cerr :=
  bindP_cerr hp

theorem skipP_eval_eok {p : P α} {q : P β} {s s₁ r : List Char} {a : α} {b : β}
    (hp : p s = .eok a s₁) (hq : q s₁ = .cok b r) : skipP p q s = .cok a r :=
  Eq.trans (bindP_eok hp) (mapP_cok hq)

theorem andP_eval_cok {p : P α} {q : P β} {s s₁ r : List Char} {a : α} {b : β}
    (hp : p s = .cok a s₁) (hq : q s₁ = .cok b r) :
    andP p q s = .cok (a, b) r :=
  Eq.trans (bindP_cok hp)
    (Eq.trans (congrArg liftC (mapP_cok hq)) rfl)

theorem andP_eval_cok_qcerr {p : P α} {q : P β} {s s₁ : List Char} {a : α}
    (hp : p s = .cok a s₁) (hq : q s₁ = .cerr) : andP p q s = .cerr :=
  Eq.trans (bindP_cok hp)
    (Eq.trans (congrArg liftC (mapP_cerr hq)) rfl)

theorem andP_eval_cerr {p : P α} {q : P β} {s : List Char}
    (hp : p s = .cerr) : andP p q s = .cerr :=
  bindP_cerr hp

/-- Forward evaluation of `parse_int` on a maximal digit run. -/
theorem parse_int_eval {bound : Nat} {run rest : List Char}
    (hne : run ≠ []) (hd : ∀ c ∈ run, isDigitB c = true)
    (hr : headFails isDigitB rest) :
    parse_int bound (run ++ rest) =
      (if natFromDigits run < bound
       then .cok (natFromDigits run) rest else .cerr) := by
  unfold parse_int
  by_cases hb : natFromDigits run < bound
  · rw [if_pos hb]
    exact andThenP_cok (many1Class_run hne hd hr) (by simp [hb])
  · rw [if_neg hb]
    exact andThenP_cok_none (many1Class_run hne hd hr) (by simp [hb])

theorem parse_int_eerr {bound : Nat} {s : List Char}
    (h : headFails isDigitB s) : parse_int bound s = .eerr :=
  andThenP_eerr (many1Class_eerr_of_headFails h)

/-- The `optional(parse_int).skip(char(c))` shape with a digit run
present and under the bound. -/
theorem skip_opt_int_some {bound : Nat} {run : List Char} {c : Char}
    (rest : List Char)
    (hne : run ≠ []) (hd : ∀ c' ∈ run, isDigitB c' = true)
    (hv : natFromDigits run < bound) (hc : isDigitB c = false) :
    skipP (optionalP (parse_int bound)) (charP c) (run ++ c :: rest) =
      .cok (some (natFromDigits run)) rest := by
  have hint : parse_int bound (run ++ c :: rest) =
      .cok (natFromDigits run) (c :: rest) := by
    rw [parse_int_eval hne hd (show headFails isDigitB (c :: rest) from hc),
        if_pos hv]
  exact skipP_eval_cok (optionalP_cok hint) (charP_cok c rest)

/-- The same shape when the integer overflows its bound: a hard
(consumed) failure. -/
theorem skip_opt_int_over {bound : Nat} {run : List Char} {c : Char}
    (rest : List Char)
    (hne : run ≠ []) (hd : ∀ c' ∈ run, isDigitB c' = true)
    (hv : ¬ natFromDigits run < bound) (hc : isDigitB c = false) :
    skipP (optionalP (parse_int bound)) (charP c) (run ++ c :: rest) = .cerr := by
  have hint : parse_int bound (run ++ c :: rest) = .cerr := by
    rw [parse_int_eval hne hd (show headFails isDigitB (c :: rest) from hc),
        if_neg hv]
  exact skipP_eval_cerr (optionalP_cerr hint)

/-- The same shape with the integer absent. -/
theorem skip_opt_int_none (bound : Nat) (rest : List Char) {c : Char}
    (hc : isDigitB c = false) :
    skipP (optionalP (parse_int bound)) (charP c) (c :: rest) = .cok none rest :=
  skipP_eval_eok
    (optionalP_eerr
      (parse_int_eerr (show headFails isDigitB (c :: rest) from hc)))
    (charP_cok c rest)

theorem digitB_ne_of {c d : Char} (h : isDigitB c = true)
    (hd : isDigitB d = false) : (c == d) = false := by
  refine beq_eq_false_iff_ne.mpr (fun he => ?_)
  subst he
  rw [h] at hd
  exact absurd hd (by simp)

theorem parse_array_range_inv {s rest : List Char} {rv : Range}
    (h : (parse_array_range s).okv = some (rv, rest)) : RangeInv rv := by
  unfold parse_array_range at h
  obtain ⟨c0, s₁, hc, hX⟩ := withP_okv_inv h
  rcases orP_okv_inv hX with hfull | ⟨-, hX2⟩
  · rw [valueP_okv_inv hfull]
    trivial
  · rcases orP_okv_inv hX2 with hone | ⟨-, hmulti⟩
    · have h1 := attemptP_okv_inv hone
      unfold array_one_element at h1
      obtain ⟨n, hskip, hvr⟩ := mapP_okv_inv h1
      subst hvr
      intro e he
      simp at he
      omega
    · have h1 := attemptP_okv_inv hmulti
      unfold array_multi_element at h1
      obtain ⟨⟨os, oe⟩, hand, hf⟩ := andThenP_okv_inv h1
      unfold array_validate at hf
      split at hf
      · cases hf; trivial
      · cases hf; trivial
      · cases hf; intro e he; simp at he
      · cases hf; intro e he; simp at he; omega
      · rename_i s' e' _ _
        split at hf
        · cases hf
          intro e he
          simp at he
          subst he
          assumption
        · cases hf

theorem parse_byte_range_inv {s rest : List Char} {rv : Range}
    (h : (parse_byte_range s).okv = some (rv, rest)) : RangeInv rv := by
  unfold parse_byte_range at h
  obtain ⟨c0, s₁, hc, hX⟩ := withP_okv_inv h
  rcases orP_okv_inv hX with hfull | ⟨-, hX2⟩
  · rw [valueP_okv_inv hfull]
    trivial
  · rcases orP_okv_inv hX2 with hone | ⟨-, hmulti⟩
    · have h1 := attemptP_okv_inv hone
      unfold byte_one_element at h1
      obtain ⟨n, hskip, hvr⟩ := mapP_okv_inv h1
      obtain ⟨s₂, hint⟩ := skipP_okv_inv hskip
      have hn : n < u32Bound := parse_int_okv_bound hint
      subst hvr
      intro l hl
      simp at hl
      subst hl
      have hn' : n < 4294967296 := hn
      show 1 ≤ 1 ∧ n + 1 ≤ 4294967295 + 1
      omega
    · have h1 := attemptP_okv_inv hmulti
      unfold byte_multi_element at h1
      obtain ⟨⟨oo, ol⟩, hand, hf⟩ := andThenP_okv_inv h1
      obtain ⟨s₃, hX1, hX2'⟩ := andP_okv_inv hand
      have hob := skip_opt_int_okv_bound hX1
      have hlb := skip_opt_int_okv_bound hX2'
      unfold byte_validate at hf
      split at hf
      · cases hf; trivial
      · cases hf; trivial
      · cases hf; intro l hl; simp at hl
      · rename_i l' heq
        injection heq with heqo heql
        subst heql
        split at hf
        · rename_i hpos
          cases hf
          intro l hl
          simp at hl
          subst hl
          have h4 : l' < 4294967296 := hlb l' (by simp)
          exact ⟨by omega, by show 0 + l' ≤ 4294967295 + 1; omega⟩
        · cases hf
      · rename_i o' l' heq
        injection heq with heqo heql
        subst heqo
        subst heql
        split at hf
        · rename_i hpos
          split at hf
          · rename_i hle
            cases hf
            intro l hl
            simp at hl
            subst hl
            have h4 : l' < 4294967296 := hlb l' (by simp)
            have hle' : o' ≤ 4294967295 - l' := hle
            exact ⟨by omega, by show o' + l' ≤ 4294967295 + 1; omega⟩
          · cases hf
        · cases hf

theorem parseRange_inv {s rest : List Char} {rv : Range}
    (h : (parseRange s).okv = some (rv, rest)) : RangeInv rv := by
  rcases orP_okv_inv h with ha | ⟨-, h2⟩
  · exact parse_array_range_inv ha
  · rcases orP_okv_inv h2 with hb | ⟨-, h3⟩
    · exact parse_byte_range_inv hb
    · obtain ⟨hv, -⟩ := pureP_okv_inv h3
      subst hv
      intro e he
      simp at he
      omega

/-- A one-element range alternative fails without net consumption when
the single integer is followed by a separator instead of the closing
bracket (or overflows its bound). -/
theorem one_element_attempt_eerr {bound : Nat} {close c₂ : Char}
    {g : Nat → Range} {run rest : List Char}
    (hne : run ≠ []) (hd : ∀ c ∈ run, isDigitB c = true)
    (hc2 : isDigitB c₂ = false) (hcc : (c₂ == close) = false) :
    attemptP (mapP (skipP (parse_int bound) (charP close)) g)
      (run ++ c₂ :: rest) = .eerr := by
  have hHF : headFails isDigitB (c₂ :: rest) := hc2
  by_cases hs : natFromDigits run < bound
  · exact attemptP_cerr (mapP_cerr (skipP_eval_cok_qeerr
      (by rw [parse_int_eval hne hd hHF, if_pos hs]) (charP_eerr hcc rest)))
  · exact attemptP_cerr (mapP_cerr (skipP_eval_cerr
      (by rw [parse_int_eval hne hd hHF, if_neg hs])))

/-- A two-field range alternative with both integers present fails
without net consumption when the validation rejects the pair (or
either integer overflows its bound). -/
theorem multi_attempt_eerr_present {bound : Nat} {sep close : Char}
    {f : Option Nat × Option Nat → Option Range} {r1 r2 : List Char}
    (rest : List Char)
    (h1ne : r1 ≠ []) (h2ne : r2 ≠ [])
    (h1d : ∀ c ∈ r1, isDigitB c = true) (h2d : ∀ c ∈ r2, isDigitB c = true)
    (hsep : isDigitB sep = false) (hclose : isDigitB close = false)
    (hf : natFromDigits r1 < bound → natFromDigits r2 < bound →
      f (some (natFromDigits r1), some (natFromDigits r2)) = none) :
    attemptP (andThenP
      (andP (skipP (optionalP (parse_int bound)) (charP sep))
            (skipP (optionalP (parse_int bound)) (charP close))) f)
      (r1 ++ sep :: (r2 ++ close :: rest)) = .eerr := by
  by_cases hs : natFromDigits r1 < bound
  · have hX1 := skip_opt_int_some (r2 ++ close :: rest) h1ne h1d hs hsep
    by_cases he : natFromDigits r2 < bound
    · have hX2 := skip_opt_int_some rest h2ne h2d he hclose
      exact attemptP_cerr
        (andThenP_cok_none (andP_eval_cok hX1 hX2) (hf hs he))
    · exact attemptP_cerr (andThenP_cerr (andP_eval_cok_qcerr hX1
        (skip_opt_int_over rest h2ne h2d he hclose)))
  · exact attemptP_cerr (andThenP_cerr (andP_eval_cerr
      (skip_opt_int_over (r2 ++ close :: rest) h1ne h1d hs hsep)))

/-- The same with the first integer absent (`{:l}`-style). -/
theorem multi_attempt_eerr_nofirst {bound : Nat} {sep close : Char}
    {f : Option Nat × Option Nat → Option Range} {r2 : List Char}
    (rest : List Char)
    (h2ne : r2 ≠ []) (h2d : ∀ c ∈ r2, isDigitB c = true)
    (hsep : isDigitB sep = false) (hclose : isDigitB close = false)
    (hf : natFromDigits r2 < bound →
      f (none, some (natFromDigits r2)) = none) :
    attemptP (andThenP
      (andP (skipP (optionalP (parse_int bound)) (charP sep))
            (skipP (optionalP (parse_int bound)) (charP close))) f)
      (sep :: (r2 ++ close :: rest)) = .eerr := by
  have hX1 := skip_opt_int_none bound (r2 ++ close :: rest) hsep
  by_cases he : natFromDigits r2 < bound
  · exact attemptP_cerr (andThenP_cok_none
      (andP_eval_cok hX1 (skip_opt_int_some rest h2ne h2d he hclose))
      (hf he))
  · exact attemptP_cerr (andThenP_cerr (andP_eval_cok_qcerr hX1
      (skip_opt_int_over rest h2ne h2d he hclose)))

theorem array_validate_ss (s e : Nat) :
    array_validate (some s, some e) =
      if s ≤ e then some (Range.Array s (some e)) else none := by
  rcases s with _ | s <;> rfl

theorem byte_validate_ss (o l : Nat) :
    byte_validate (some o, some l) =
      (if l > 0 then
        if o ≤ u32Max - l then some (Range.Raw o (some l)) else none
      else none) := by
  rcases o with _ | o <;> rfl

theorem byte_validate_ns (l : Nat) :
    byte_validate (none, some l) =
      (if l > 0 then some (Range.Raw 0 (some l)) else none) := rfl

/-! ## Claim theorems -/

/-- Claim C6: the device grammar.  For `0`-led devices (`0` qualifier
digit+) and letter-led devices (letter qualifier devchar+) the parser
consumes maximally, returns the canonical text `<first>:<body>` (the
qualifier normalized to `:`) paired with the qualifier's default
property per `qualMap`; and it fails when the first character is a
digit other than `0`, when no qualifier character follows the first
character, or when the name body is empty. -/
theorem c6_device_grammar :
    (∀ (qual : Char) (prop : Property) (body rest : List Char),
      qualMap qual = some prop → body ≠ [] →
      (∀ c ∈ body, isDigitB c = true) → headFails isDigitB rest →
      parseDevice ('0' :: qual :: body ++ rest) =
        .cok (String.mk ('0' :: ':' :: body), prop) rest) ∧
    (∀ (first qual : Char) (prop : Property) (body rest : List Char),
      isAlphaB first = true → qualMap qual = some prop → body ≠ [] →
      (∀ c ∈ body, devChar c = true) → headFails devChar rest →
      parseDevice (first :: qual :: body ++ rest) =
        .cok (String.mk (first :: ':' :: body), prop) rest) ∧
    (∀ (c : Char) (rest : List Char), isDigitB c = true → c ≠ '0' →
      (parseDevice (c :: rest)).isErr = true) ∧
    (∀ (first qual : Char) (rest : List Char),
      (first = '0' ∨ isAlphaB first = true) → qualMap qual = none →
      (parseDevice (first :: qual :: rest)).isErr = true) ∧
    (∀ (qual : Char) (prop : Property) (rest : List Char),
      qualMap qual = some prop → headFails isDigitB rest →
      (parseDevice ('0' :: qual :: rest)).isErr = true) ∧
    (∀ (first qual : Char) (prop : Property) (rest : List Char),
      isAlphaB first = true → qualMap qual = some prop →
      headFails devChar rest →
      (parseDevice (first :: qual :: rest)).isErr = true) := by
  refine ⟨?_, ?_, ?_, ?_, ?_, ?_⟩
  · intro qual prop body rest hq hne hb hr
    exact orP_pass (parse_di_cok hq hne hb hr) (by simp)
  · intro first qual prop body rest hf hq hne hb hr
    exact parseDevice_string_cok hf hq hne hb hr
  · intro c rest hd hne
    have h1 : parse_di (c :: rest) = .eerr :=
      mapP_eerr (bindP_eerr (charP_eerr (beq_eq_false_iff_ne.mpr hne) rest))
    have h2 : parse_string (c :: rest) = .eerr :=
      mapP_eerr (bindP_eerr (satisfyP_eerr (digitB_not_alphaB hd) rest))
    have h3 : parseDevice (c :: rest) = .eerr := Eq.trans (orP_eerr h1) h2
    rw [h3]; rfl
  · intro first qual rest hfirst hqn
    rcases hfirst with rfl | hf
    · have hand : and3P (charP '0') parse_prop_symbol (many1Class isDigitB)
          ('0' :: qual :: rest) = .cerr :=
        Eq.trans (bindP_cok (charP_cok '0' (qual :: rest)))
          (Eq.trans
            (congrArg liftC (bindP_eerr (parse_prop_symbol_eerr hqn rest)))
            rfl)
      have h3 : parseDevice ('0' :: qual :: rest) = .cerr :=
        orP_pass (mapP_cerr hand) (by simp)
      rw [h3]; rfl
    · have hand : and3P (satisfyP isAlphaB) parse_prop_symbol
          (many1Class devChar) (first :: qual :: rest) = .cerr :=
        Eq.trans (bindP_cok (satisfyP_cok hf (qual :: rest)))
          (Eq.trans
            (congrArg liftC (bindP_eerr (parse_prop_symbol_eerr hqn rest)))
            rfl)
      have h3 : parseDevice (first :: qual :: rest) = .cerr :=
        Eq.trans (orP_eerr (parse_di_eerr_alpha hf (qual :: rest)))
          (mapP_cerr hand)
      rw [h3]; rfl
  · intro qual prop rest hq hr
    have hand : and3P (charP '0') parse_prop_symbol (many1Class isDigitB)
        ('0' :: qual :: rest) = .cerr :=
      Eq.trans (bindP_cok (charP_cok '0' (qual :: rest)))
        (Eq.trans
          (congrArg liftC
            (Eq.trans (bindP_cok (parse_prop_symbol_cok hq rest))
              (congrArg liftC (mapP_eerr (many1Class_eerr_of_headFails hr)))))
          rfl)
    have h3 : parseDevice ('0' :: qual :: rest) = .cerr :=
      orP_pass (mapP_cerr hand) (by simp)
    rw [h3]; rfl
  · intro first qual prop rest hf hq hr
    have hand : and3P (satisfyP isAlphaB) parse_prop_symbol
        (many1Class devChar) (first :: qual :: rest) = .cerr :=
      Eq.trans (bindP_cok (satisfyP_cok hf (qual :: rest)))
        (Eq.trans
          (congrArg liftC
            (Eq.trans (bindP_cok (parse_prop_symbol_cok hq rest))
              (congrArg liftC (mapP_eerr (many1Class_eerr_of_headFails hr)))))
          rfl)
    have h3 : parseDevice (first :: qual :: rest) = .cerr :=
      Eq.trans (orP_eerr (parse_di_eerr_alpha hf (qual :: rest)))
        (mapP_cerr hand)
    rw [h3]; rfl

/-- Claim C7: property-override compatibility.  The compatibility test
accepts exactly when the qualifier-implied property is in the Reading
family or the override is of the same family; on a name in the
property table, `parse_property` succeeds exactly under that test and
fails hard otherwise; a name in neither table (not in the property
table at all, like a bare field name) is a hard error; and at the full
parse, a Setting qualifier with a `.STATUS` override is rejected. -/
theorem c7_property_override_compat :
    (∀ (qual prop : Property),
      compatible qual prop =
        (isReadingProp qual || familyTag qual == familyTag prop)) ∧
    (∀ (qual : Property) (run rest : List Char) (prop : Property),
      run ≠ [] → (∀ c ∈ run, isNameChar c = true) →
      headFails isNameChar rest →
      lookupTbl (upperName run) PROPERTIES = some prop →
      parse_property qual ('.' :: run ++ rest) =
        (if compatible qual prop then .cok prop rest else .cerr)) ∧
    (∀ (qual : Property) (run rest : List Char),
      run ≠ [] → (∀ c ∈ run, isNameChar c = true) →
      headFails isNameChar rest →
      lookupTbl (upperName run) PROPERTIES = none →
      (parse_property qual ('.' :: run ++ rest)).isErr = true) ∧
    parseRequest "M_OUTTMP.STATUS" = none := by
  refine ⟨?_, ?_, ?_, by decide⟩
  · intro qual prop
    cases qual <;> cases prop <;> rfl
  · intro qual run rest prop hne hrun hr hlook
    have hmany := many1Class_run hne hrun hr
    refine Eq.trans (withP_cok (charP_cok '.' (run ++ rest))) ?_
    by_cases hcomp : compatible qual prop = true
    · rw [if_pos hcomp]
      have hfv : (fun run =>
          match lookupTbl (upperName run) PROPERTIES with
          | some property =>
            if compatible qual property then some property else none
          | none => none) run = some prop := by
        simp [hlook, hcomp]
      rw [andThenP_cok hmany hfv]
      rfl
    · rw [if_neg hcomp]
      rw [andThenP_cok_none hmany
        (by simp [hlook]; simp at hcomp; simp [hcomp])]
      rfl
  · intro qual run rest hne hrun hr hlook
    have hmany := many1Class_run hne hrun hr
    have h3 : parse_property qual ('.' :: run ++ rest) = .cerr :=
      Eq.trans (withP_cok (charP_cok '.' (run ++ rest)))
        (by rw [andThenP_cok_none hmany (by simp [hlook])]; rfl)
    rw [h3]; rfl

/-- Witness for C7 at concrete names: the Reading qualifier accepts a
`.STATUS` override, the Setting qualifier accepts `.SETTING` but
rejects `.STATUS`, and the unknown name `.FOO` is rejected. -/
theorem c7_property_override_compat_witness :
    parse_property (.Reading .Scaled) ".STATUS".toList =
      .cok (.Status .All) [] ∧
    parse_property (.Setting .Scaled) ".SETTING".toList =
      .cok (.Setting .Scaled) [] ∧
    parse_property (.Setting .Scaled) ".STATUS".toList = .cerr ∧
    (parse_property (.Reading .Scaled) ".FOO".toList).isErr = true := by
  obtain ⟨-, hsome, hnone, -⟩ := c7_property_override_compat
  refine ⟨?_, ?_, ?_, ?_⟩
  · exact (hsome (.Reading .Scaled) "STATUS".toList [] (.Status .All)
      (by decide) (by decide) trivial (by decide)).trans (by decide)
  · exact (hsome (.Setting .Scaled) "SETTING".toList [] (.Setting .Scaled)
      (by decide) (by decide) trivial (by decide)).trans (by decide)
  · exact (hsome (.Setting .Scaled) "STATUS".toList [] (.Status .All)
      (by decide) (by decide) trivial (by decide)).trans (by decide)
  · exact hnone (.Reading .Scaled) "FOO".toList []
      (by decide) (by decide) trivial (by decide)

/-- Claim C9 counterexample: the single-element byte range
`{4294967295}` parses successfully to `Raw{offset: u32::MAX,
length: 1}`, whose offset + length is 2^32 — it overflows the 32-bit
domain, so "every Range value produced by a successful parse has no
32-bit overflow of offset + length" is false. -/
theorem c9_single_byte_overflow_counterexample :
    parseRange "{4294967295}".toList =
      .cok (Range.Raw 4294967295 (some 1)) [] ∧
    4294967295 + 1 > u32Max := by
  exact ⟨by decide, by decide⟩

/-- Claim C9 (amended): array ranges with start > end fail; byte
ranges with an explicit zero length fail; explicit two-field byte
ranges whose offset + length exceeds `u32::MAX` fail; and every range
from a successful parse satisfies start ≤ end (array, both bounds
present) and length ≥ 1 with offset + length ≤ 2^32 (raw) — the bound
is 2^32 rather than 2^32 − 1 because the single-element form `{o}`
skips the overflow check and `{4294967295}` attains offset + length =
2^32. -/
theorem c9_range_bounds_amended :
    (∀ (sRun eRun : List Char),
      sRun ≠ [] → eRun ≠ [] →
      (∀ c ∈ sRun, isDigitB c = true) → (∀ c ∈ eRun, isDigitB c = true) →
      natFromDigits sRun > natFromDigits eRun →
      (parseRange ('[' :: (sRun ++ (':' :: (eRun ++ [']']))))).isErr = true) ∧
    (∀ (lRun : List Char), lRun ≠ [] → (∀ c ∈ lRun, isDigitB c = true) →
      natFromDigits lRun = 0 →
      (parseRange ('{' :: (':' :: (lRun ++ ['}'])))).isErr = true) ∧
    (∀ (oRun lRun : List Char), oRun ≠ [] → lRun ≠ [] →
      (∀ c ∈ oRun, isDigitB c = true) → (∀ c ∈ lRun, isDigitB c = true) →
      natFromDigits lRun = 0 →
      (parseRange ('{' :: (oRun ++ (':' :: (lRun ++ ['}']))))).isErr = true) ∧
    (∀ (oRun lRun : List Char), oRun ≠ [] → lRun ≠ [] →
      (∀ c ∈ oRun, isDigitB c = true) → (∀ c ∈ lRun, isDigitB c = true) →
      natFromDigits oRun + natFromDigits lRun > u32Max →
      (parseRange ('{' :: (oRun ++ (':' :: (lRun ++ ['}']))))).isErr = true) ∧
    (∀ (s rest : List Char) (rv : Range),
      (parseRange s).okv = some (rv, rest) → RangeInv rv) := by
  have hcolon : isDigitB ':' = false := by decide
  have hrb : isDigitB ']' = false := by decide
  have hcb : isDigitB '}' = false := by decide
  refine ⟨?_, ?_, ?_, ?_, fun s rest rv h => parseRange_inv h⟩
  · intro sRun eRun hsne hene hsd hed hgt
    obtain ⟨c0, sr', rfl⟩ := List.exists_cons_of_ne_nil hsne
    have hc0 : isDigitB c0 = true := hsd c0 (by simp)
    have hfull : valueP (charP ']') Range.Full
        ((c0 :: sr') ++ (':' :: (eRun ++ [']']))) = .eerr :=
      valueP_charP_eerr _ (digitB_ne_of hc0 hrb) _
    have hone : attemptP array_one_element
        ((c0 :: sr') ++ (':' :: (eRun ++ [']']))) = .eerr :=
      one_element_attempt_eerr hsne hsd hcolon (by decide)
    have hmulti : attemptP array_multi_element
        ((c0 :: sr') ++ (':' :: (eRun ++ [']']))) = .eerr :=
      multi_attempt_eerr_present [] hsne hene hsd hed hcolon hrb
        (fun h1 h2 => by
          rw [array_validate_ss, if_neg (by omega)])
    have harr : parse_array_range
        ('[' :: ((c0 :: sr') ++ (':' :: (eRun ++ [']'])))) = .cerr :=
      Eq.trans (withP_cok (charP_cok '[' _))
        (Eq.trans (congrArg liftC
          (Eq.trans (orP_eerr hfull) (Eq.trans (orP_eerr hone) hmulti))) rfl)
    have hrange : parseRange
        ('[' :: ((c0 :: sr') ++ (':' :: (eRun ++ [']'])))) = .cerr :=
      orP_pass harr (by simp)
    rw [hrange]; rfl
  · intro lRun hlne hld hl0
    have harr : parse_array_range ('{' :: (':' :: (lRun ++ ['}']))) = .eerr := by
      unfold parse_array_range withP
      exact bindP_eerr (charP_eerr (by decide) _)
    have hfull : valueP (charP '}') Range.Full
        (':' :: (lRun ++ ['}'])) = .eerr :=
      valueP_charP_eerr _ (by decide) _
    have hone : attemptP byte_one_element (':' :: (lRun ++ ['}'])) = .eerr :=
      attemptP_pass (mapP_eerr (bindP_eerr (parse_int_eerr
        (show headFails isDigitB (':' :: (lRun ++ ['}'])) from hcolon))))
        (by simp)
    have hmulti : attemptP byte_multi_element (':' :: (lRun ++ ['}'])) = .eerr :=
      multi_attempt_eerr_nofirst [] hlne hld hcolon hcb
        (fun h2 => by
          rw [byte_validate_ns, if_neg (by omega)])
    have hbyte : parse_byte_range ('{' :: (':' :: (lRun ++ ['}']))) = .cerr :=
      Eq.trans (withP_cok (charP_cok '{' _))
        (Eq.trans (congrArg liftC
          (Eq.trans (orP_eerr hfull) (Eq.trans (orP_eerr hone) hmulti))) rfl)
    have hrange : parseRange ('{' :: (':' :: (lRun ++ ['}']))) = .cerr :=
      Eq.trans (orP_eerr harr) (orP_pass hbyte (by simp))
    rw [hrange]; rfl
  · intro oRun lRun hone_ hlne hod hld hl0
    obtain ⟨c0, or', rfl⟩ := List.exists_cons_of_ne_nil hone_
    have hc0 : isDigitB c0 = true := hod c0 (by simp)
    have harr : parse_array_range
        ('{' :: ((c0 :: or') ++ (':' :: (lRun ++ ['}'])))) = .eerr := by
      unfold parse_array_range withP
      exact bindP_eerr (charP_eerr (by decide) _)
    have hfull : valueP (charP '}') Range.Full
        ((c0 :: or') ++ (':' :: (lRun ++ ['}']))) = .eerr :=
      valueP_charP_eerr _ (digitB_ne_of hc0 hcb) _
    have hone : attemptP byte_one_element
        ((c0 :: or') ++ (':' :: (lRun ++ ['}']))) = .eerr :=
      one_element_attempt_eerr hone_ hod hcolon (by decide)
    have hmulti : attemptP byte_multi_element
        ((c0 :: or') ++ (':' :: (lRun ++ ['}']))) = .eerr :=
      multi_attempt_eerr_present [] hone_ hlne hod hld hcolon hcb
        (fun h1 h2 => by
          rw [byte_validate_ss, if_neg (by omega)])
    have hbyte : parse_byte_range
        ('{' :: ((c0 :: or') ++ (':' :: (lRun ++ ['}'])))) = .cerr :=
      Eq.trans (withP_cok (charP_cok '{' _))
        (Eq.trans (congrArg liftC
          (Eq.trans (orP_eerr hfull) (Eq.trans (orP_eerr hone) hmulti))) rfl)
    have hrange : parseRange
        ('{' :: ((c0 :: or') ++ (':' :: (lRun ++ ['}'])))) = .cerr :=
      Eq.trans (orP_eerr harr) (orP_pass hbyte (by simp))
    rw [hrange]; rfl
  · intro oRun lRun hone_ hlne hod hld hsum
    obtain ⟨c0, or', rfl⟩ := List.exists_cons_of_ne_nil hone_
    have hc0 : isDigitB c0 = true := hod c0 (by simp)
    have hsum' : natFromDigits (c0 :: or') + natFromDigits lRun
        > 4294967295 := hsum
    have harr : parse_array_range
        ('{' :: ((c0 :: or') ++ (':' :: (lRun ++ ['}'])))) = .eerr := by
      unfold parse_array_range withP
      exact bindP_eerr (charP_eerr (by decide) _)
    have hfull : valueP (charP '}') Range.Full
        ((c0 :: or') ++ (':' :: (lRun ++ ['}']))) = .eerr :=
      valueP_charP_eerr _ (digitB_ne_of hc0 hcb) _
    have hone : attemptP byte_one_element
        ((c0 :: or') ++ (':' :: (lRun ++ ['}']))) = .eerr :=
      one_element_attempt_eerr hone_ hod hcolon (by decide)
    have hmulti : attemptP byte_multi_element
        ((c0 :: or') ++ (':' :: (lRun ++ ['}']))) = .eerr :=
      multi_attempt_eerr_present [] hone_ hlne hod hld hcolon hcb
        (fun h1 h2 => by
          have h2' : natFromDigits lRun < 4294967296 := h2
          rw [byte_validate_ss]
          by_cases hl : natFromDigits lRun > 0
          · have hneg : ¬ natFromDigits (c0 :: or') ≤
                4294967295 - natFromDigits lRun := by omega
            rw [if_pos hl,
               if_neg (show ¬ natFromDigits (c0 :: or') ≤
                 u32Max - natFromDigits lRun from hneg)]
          · rw [if_neg hl])
    have hbyte : parse_byte_range
        ('{' :: ((c0 :: or') ++ (':' :: (lRun ++ ['}'])))) = .cerr :=
      Eq.trans (withP_cok (charP_cok '{' _))
        (Eq.trans (congrArg liftC
          (Eq.trans (orP_eerr hfull) (Eq.trans (orP_eerr hone) hmulti))) rfl)
    have hrange : parseRange
        ('{' :: ((c0 :: or') ++ (':' :: (lRun ++ ['}'])))) = .cerr :=
      Eq.trans (orP_eerr harr) (orP_pass hbyte (by simp))
    rw [hrange]; rfl

/-- Witness for C9: `[2:1]` (start > end), `{:0}` and `{4:0}` (zero
length), and `{4000000000:294967296}` (offset + length = 2^32) all
fail; `[1:2]` parses and satisfies the invariant. -/
theorem c9_range_bounds_amended_witness :
    (parseRange "[2:1]".toList).isErr = true ∧
    (parseRange "{:0}".toList).isErr = true ∧
    (parseRange "{4:0}".toList).isErr = true ∧
    (parseRange "{4000000000:294967296}".toList).isErr = true ∧
    RangeInv (Range.Array 1 (some 2)) := by
  obtain ⟨ha, hb1, hb2, hc, hinv⟩ := c9_range_bounds_amended
  refine ⟨?_, ?_, ?_, ?_, ?_⟩
  · exact ha ['2'] ['1'] (by decide) (by decide) (by decide) (by decide)
      (by decide)
  · exact hb1 ['0'] (by decide) (by decide) (by decide)
  · exact hb2 ['4'] ['0'] (by decide) (by decide) (by decide) (by decide)
      (by decide)
  · exact hc "4000000000".toList "294967296".toList (by decide) (by decide)
      (by decide) (by decide) (by decide)
  · exact hinv "[1:2]".toList [] (Range.Array 1 (some 2)) (by decide)

/-- Claim C10: trailing input is silently discarded.  The top-level
parse returns Ok whenever the pipeline succeeds, never inspecting the
unconsumed remainder; for a letter-led device followed by a remainder
whose first character neither extends the device token nor begins any
optional fragment (`.`, `[`, `{`, `@`), the parse succeeds with the
prefix's request and all-default property, range and event; and a
field keyword after the range (`M:OUTTMP[0:3].SCALED`) is likewise
discarded rather than reported. -/
theorem c10_trailing_input_discarded :
    (∀ (s : String) (r : Request) (rest : List Char),
      requestCore s.toList = .cok r rest → parseRequest s = some r) ∧
    (∀ (first qual : Char) (prop : Property) (body t' : List Char) (c : Char),
      isAlphaB first = true → qualMap qual = some prop → body ≠ [] →
      (∀ d ∈ body, devChar d = true) → devChar c = false →
      c ≠ '.' → c ≠ '[' → c ≠ '{' → c ≠ '@' →
      parseRequest (String.mk (first :: qual :: (body ++ c :: t'))) =
        some { device := String.mk (first :: ':' :: body), property := prop,
               range := .Array 0 (some 0), event := .Default }) ∧
    parseRequest "M:OUTTMP[0:3].SCALED" =
      some { device := "M:OUTTMP", property := .Reading .Scaled,
             range := .Array 0 (some 3), event := .Default } := by
  refine ⟨?_, ?_, by decide⟩
  · intro s r rest h
    have h' : requestCore s.data = .cok r rest := h
    simp [parseRequest, h']
  · intro first qual prop body t' c hf hq hne hb hc hdot hlb hcb hat
    have hdev : parseDevice (first :: qual :: (body ++ c :: t')) =
        .cok (String.mk (first :: ':' :: body), prop) (c :: t') :=
      parseDevice_string_cok hf hq hne hb
        (show headFails devChar (c :: t') from hc)
    have hprop : parse_property prop (c :: t') = .eerr := by
      unfold parse_property withP
      exact bindP_eerr (charP_eerr (beq_eq_false_iff_ne.mpr hdot) t')
    have hP1 : mapP (optionalP (parse_property prop))
        (fun v => v.getD prop) (c :: t') = .eok prop (c :: t') :=
      mapP_eok (optionalP_eerr hprop)
    have hP2 : parseRange (c :: t') = .eok (Range.Array 0 (some 0)) (c :: t') := by
      have ha : parse_array_range (c :: t') = .eerr := by
        unfold parse_array_range withP
        exact bindP_eerr (charP_eerr (beq_eq_false_iff_ne.mpr hlb) t')
      have hby : parse_byte_range (c :: t') = .eerr := by
        unfold parse_byte_range withP
        exact bindP_eerr (charP_eerr (beq_eq_false_iff_ne.mpr hcb) t')
      exact Eq.trans (orP_eerr ha) (Eq.trans (orP_eerr hby) rfl)
    have hP3 : parseEvent (c :: t') = .eok Event.Default (c :: t') := by
      have hev : withP (charP '@') eventBody (c :: t') = .eerr := by
        unfold withP
        exact bindP_eerr (charP_eerr (beq_eq_false_iff_ne.mpr hat) t')
      exact Eq.trans (orP_eerr hev) rfl
    have hand : and3P
        (mapP (optionalP (parse_property prop)) (fun v => v.getD prop))
        parseRange parseEvent (c :: t') =
        .eok (prop, Range.Array 0 (some 0), Event.Default) (c :: t') :=
      Eq.trans (bindP_eok hP1)
        (Eq.trans (bindP_eok hP2) (mapP_eok hP3))
    have hcore : requestCore (first :: qual :: (body ++ c :: t')) =
        .cok { device := String.mk (first :: ':' :: body), property := prop,
               range := .Array 0 (some 0), event := .Default } (c :: t') :=
      Eq.trans (bindP_cok hdev)
        (Eq.trans (congrArg liftC (mapP_eok hand)) rfl)
    simp [parseRequest, hcore]

/-- Witness for C10: applying the discard property at the concrete
input `M:OUTTMP%junk` — the `%junk` tail is dropped and the parse
succeeds with the defaults. -/
theorem c10_trailing_input_discarded_witness :
    parseRequest "M:OUTTMP%junk" =
      some { device := "M:OUTTMP", property := .Reading .Scaled,
             range := .Array 0 (some 0), event := .Default } := by
  obtain ⟨-, hgen, -⟩ := c10_trailing_input_discarded
  have h := hgen 'M' ':' (.Reading .Scaled) "OUTTMP".toList "junk".toList '%'
    (by decide) (by decide) (by decide) (by decide) (by decide)
    (by decide) (by decide) (by decide) (by decide)
  exact h

/-- Witness for C6: concrete instances of each conjunct — `0:123456`
and `M|OUTTMP` succeed with the normalized text and the qualifier's
property, while `1:123456` (leading digit other than 0), `M%OUTTMP`
(no qualifier) and `M:` (empty body) fail. -/
theorem c6_device_grammar_witness :
    parseDevice "0:123456".toList =
      .cok ("0:123456", .Reading .Scaled) [] ∧
    parseDevice "M|OUTTMP".toList = .cok ("M:OUTTMP", .Status .All) [] ∧
    (parseDevice "1:123456".toList).isErr = true ∧
    (parseDevice "M%OUTTMP".toList).isErr = true ∧
    (parseDevice "M:".toList).isErr = true := by
  obtain ⟨hA, hB, hC, hD, -, hF⟩ := c6_device_grammar
  refine ⟨?_, ?_, ?_, ?_, ?_⟩
  · exact hA ':' _ ['1', '2', '3', '4', '5', '6'] []
      (by decide) (by decide) (by decide) trivial
  · exact hB 'M' '|' _ ['O', 'U', 'T', 'T', 'M', 'P'] []
      (by decide) (by decide) (by decide) (by decide) trivial
  · exact hC '1' ":123456".toList (by decide) (by decide)
  · exact hD 'M' '%' "OUTTMP".toList (Or.inr (by decide)) (by decide)
  · exact hF 'M' ':' (.Reading .Scaled) [] (by decide) (by decide) trivial

/-- Claim C1 (code bug): round-trip idempotence fails.  For
`s = "M:OUTTMP@N"`, `parse s` yields a request with event `Never`, its
canonical form is `"M:OUTTMP.READING.SCALED@N"`, but re-parsing that
canonical form yields a request whose event is `Default`: the field
keyword `.SCALED` emitted between the range and the event is never
consumed by `parse` (which does not invoke `parse_field`), so the event
parser stops at `.` and the `@N` tail is silently discarded.  Hence
`parse(canonical(parse s)) ≠ parse s` and
`canonical(parse(canonical(parse s))) ≠ canonical(parse s)`. -/
theorem c1_roundtrip_fails_at_event :
    parseRequest "M:OUTTMP@N" =
      some { device := "M:OUTTMP", property := .Reading .Scaled,
             range := .Array 0 (some 0), event := .Never } ∧
    Request.canonical
      { device := "M:OUTTMP", property := .Reading .Scaled,
        range := .Array 0 (some 0), event := .Never } =
      "M:OUTTMP.READING.SCALED@N" ∧
    parseRequest "M:OUTTMP.READING.SCALED@N" =
      some { device := "M:OUTTMP", property := .Reading .Scaled,
             range := .Array 0 (some 0), event := .Default } ∧
    parseRequest "M:OUTTMP.READING.SCALED@N" ≠ parseRequest "M:OUTTMP@N" ∧
    (parseRequest "M:OUTTMP.READING.SCALED@N").map Request.canonical ≠
      some "M:OUTTMP.READING.SCALED@N" := by
  refine ⟨by decide, by decide, by decide, by decide, by decide⟩

/-- Claim C2 (code bug): field-name resolution is absent from the full
parse.  `"M:OUTTMP.RAW"` has a `.NAME` suffix in the Reading field-name
table, yet the top-level parse rejects it (`parse` only ever applies
`parse_property`, and `RAW` is not a property name), while the
repository's own `parse_field` — never invoked by `parse` — resolves
exactly as the claim states, keeping the family and updating the
sub-field. -/
theorem c2_field_resolution_unwired :
    parseRequest "M:OUTTMP.RAW" = none ∧
    parse_field (.Reading .Scaled) ".RAW".toList = .cok (.Reading .Raw) [] ∧
    lookupTbl "RAW" READING_FIELDS = some .Raw := by
  refine ⟨by decide, by decide, by decide⟩

/-- Claim C8: the six collapse strings all parse to the `Full` range
and `Full` canonicalizes to the string consisting of an opening and a
closing square bracket. -/
theorem c8_range_collapse :
    parseRange "[]".toList = .cok Range.Full [] ∧
    parseRange "[:]".toList = .cok Range.Full [] ∧
    parseRange "[0:]".toList = .cok Range.Full [] ∧
    parseRange "{}".toList = .cok Range.Full [] ∧
    parseRange "{:}".toList = .cok Range.Full [] ∧
    parseRange "{0:}".toList = .cok Range.Full [] ∧
    Range.canonical Range.Full = "[]" := by
  refine ⟨by decide, by decide, by decide, by decide, by decide, by decide, by decide⟩

/-- Claim C3: the time/rate scaler.  For every `u32` value `v` and
suffix accepted by the time-freq grammar, the scaled result is:
`v * 1000000` for s/S and `v * 1000` for m/M/none, clipped to
`u32::MAX` when the product would overflow; `v` itself for u/U;
`1000 / v` for k/K and `1000000 / v` for h/H, with `v = 0` clipped to
`u32::MAX` and a division rounding to zero clipped to 1.  The claim's
saturation boundary examples hold through `parse_time_freq`. -/
theorem c3_scale_rate_saturating (v : Nat) (hv : v ≤ u32Max) :
    (∀ c, (c = 's' ∨ c = 'S') →
      scale_rate v (some c) =
        if v * 1000000 ≤ u32Max then v * 1000000 else u32Max) ∧
    (∀ c, (c = 'm' ∨ c = 'M') →
      scale_rate v (some c) =
        if v * 1000 ≤ u32Max then v * 1000 else u32Max) ∧
    (scale_rate v none = if v * 1000 ≤ u32Max then v * 1000 else u32Max) ∧
    (∀ c, (c = 'u' ∨ c = 'U') → scale_rate v (some c) = v) ∧
    (∀ c, (c = 'k' ∨ c = 'K') →
      scale_rate v (some c) =
        if v = 0 then u32Max
        else if 1000 / v = 0 then 1 else 1000 / v) ∧
    (∀ c, (c = 'h' ∨ c = 'H') →
      scale_rate v (some c) =
        if v = 0 then u32Max
        else if 1000000 / v = 0 then 1 else 1000000 / v) ∧
    parse_time_freq "4294S".toList = .cok 4294000000 [] ∧
    parse_time_freq "4295S".toList = .cok u32Max [] ∧
    parse_time_freq "0H".toList = .cok u32Max [] ∧
    parse_time_freq "1000001H".toList = .cok 1 [] ∧
    parse_time_freq "0K".toList = .cok u32Max [] := by
  have hdiv0 : ∀ a b : Nat, b > a → a / b = 0 := fun a b h => Nat.div_eq_of_lt h
  have hdiv1 : ∀ a b : Nat, 0 < b → b ≤ a → 1 ≤ a / b := by
    intro a b hb hba
    exact (Nat.one_le_div_iff hb).mpr hba
  refine ⟨?_, ?_, ?_, ?_, ?_, ?_, by decide, by decide, by decide, by decide, by decide⟩
  · rintro c (rfl | rfl) <;>
    · show (if v > u32Max / 1000000 then u32Max else v * 1000000) = _
      simp only [u32Max]
      norm_num
      split <;> split <;> omega
  · rintro c (rfl | rfl) <;>
    · show (if v > u32Max / 1000 then u32Max else v * 1000) = _
      simp only [u32Max]
      norm_num
      split <;> split <;> omega
  · show (if v > u32Max / 1000 then u32Max else v * 1000) = _
    simp only [u32Max]
    norm_num
    split <;> split <;> omega
  · rintro c (rfl | rfl) <;> rfl
  · rintro c (rfl | rfl) <;>
    · show (if v = 0 then u32Max else if v > 1000 then 1 else 1000 / v) = _
      rcases Nat.eq_zero_or_pos v with rfl | hpos
      · simp
      · have hvne : v ≠ 0 := by omega
        by_cases hgt : v > 1000
        · have h0 : 1000 / v = 0 := hdiv0 _ _ hgt
          simp [hvne, hgt, h0]
        · have h1 : 1 ≤ 1000 / v := hdiv1 _ _ hpos (by omega)
          have h0 : ¬(1000 / v = 0) := by omega
          simp [hvne, hgt, h0]
  · rintro c (rfl | rfl) <;>
    · show (if v = 0 then u32Max else if v > 1000000 then 1 else 1000000 / v) = _
      rcases Nat.eq_zero_or_pos v with rfl | hpos
      · simp
      · have hvne : v ≠ 0 := by omega
        by_cases hgt : v > 1000000
        · have h0 : 1000000 / v = 0 := hdiv0 _ _ hgt
          simp [hvne, hgt, h0]
        · have h1 : 1 ≤ 1000000 / v := hdiv1 _ _ hpos (by omega)
          have h0 : ¬(1000000 / v = 0) := by omega
          simp [hvne, hgt, h0]

/-- Claim C5: once `@` is consumed the event parser is committed.  If
the continuation after `@` is not a well-formed event body (the body
alternation fails, for any reason — unknown selector, bad digits,
unknown suffix or comparison token, trailing comma as in `@P,`), the
event parser fails hard; and the `Default` fallback (an empty-input
success) can never fire on an input that starts with `@`. -/
theorem c5_event_grammar_committed (rest : List Char)
    (h : (eventBody rest).isErr = true) :
    (parseEvent ('@' :: rest)).isErr = true ∧
    ∀ (rest' : List Char) (v : Event) (s : List Char),
      parseEvent ('@' :: rest') ≠ .eok v s := by
  constructor
  · have hc := charP_cok '@' rest
    unfold parseEvent
    have hl : withP (charP '@') eventBody ('@' :: rest) = .cerr := by
      rw [withP_cok hc]
      cases hb : eventBody rest <;>
        simp [hb, PResult.isErr, liftC] at h ⊢
    rw [orP_pass hl (by simp)]
    rfl
  · intro rest' v s
    have hc := charP_cok '@' rest'
    unfold parseEvent
    cases hb : eventBody rest' with
    | cok a s' =>
      have hl : withP (charP '@') eventBody ('@' :: rest') = .cok a s' := by
        rw [withP_cok hc, hb]; rfl
      rw [orP_pass hl (by simp)]
      simp
    | eok a s' =>
      have hl : withP (charP '@') eventBody ('@' :: rest') = .cok a s' := by
        rw [withP_cok hc, hb]; rfl
      rw [orP_pass hl (by simp)]
      simp
    | cerr =>
      have hl : withP (charP '@') eventBody ('@' :: rest') = .cerr := by
        rw [withP_cok hc, hb]; rfl
      rw [orP_pass hl (by simp)]
      simp
    | eerr =>
      have hl : withP (charP '@') eventBody ('@' :: rest') = .cerr := by
        rw [withP_cok hc, hb]; rfl
      rw [orP_pass hl (by simp)]
      simp

/-- Witness for C5 at the claim's own example `@P,` (trailing comma
with no digits): the body fails and the whole event parse fails. -/
theorem c5_event_grammar_committed_witness :
    (eventBody ['P', ',']).isErr = true ∧
    (parseEvent "@P,".toList).isErr = true := by
  have h := c5_event_grammar_committed ['P', ','] (by decide)
  exact ⟨by decide, h.1⟩

/-- Claim C4 counterexample: `@E,00001` carries a five-digit hex run,
yet the event parse succeeds (value 1 fits 16 bits); the claim's
"succeeds exactly when at most 4 digits" is therefore false. -/
theorem c4_hex_digits_counterexample :
    parseEvent "@E,00001".toList = .cok (Event.Clock 1 ClockType.Either 0) [] ∧
    ¬("00001".toList.length ≤ 4) := by
  exact ⟨by decide, by decide⟩

/-- Claim C4 (amended): after `@E,` the event id is 1 or more hex
digits, and the parse succeeds exactly when their value fits in 16
bits (at most 4 significant digits; leading zeros are allowed), the
id being that value; a value of 65536 or more is a parse error. -/
theorem c4_clock_hex_id_fits16 (h : List Char) (hne : h ≠ [])
    (hhex : ∀ c ∈ h, isHexDigitB c = true) :
    parseEvent ('@' :: 'E' :: ',' :: h) =
      (if natFromHex h < u16Bound
       then .cok (Event.Clock (natFromHex h) ClockType.Either 0) []
       else .cerr) := by
  have hrun : many1Class isHexDigitB h = .cok h [] := by
    have h2 : many1Class isHexDigitB (h ++ []) = .cok h [] :=
      many1Class_run hne hhex trivial
    simpa using h2
  have hce : parse_clock_event h =
      (if natFromHex h < u16Bound then .cok (natFromHex h) [] else .cerr) := by
    unfold parse_clock_event
    by_cases hb : natFromHex h < u16Bound
    · rw [if_pos hb]
      exact andThenP_cok hrun (by simp [hb])
    · rw [if_neg hb]
      exact andThenP_cok_none hrun (by simp [hb])
  have hfield1 : withP (charP ',') parse_clock_event (',' :: h) =
      (if natFromHex h < u16Bound then .cok (natFromHex h) [] else .cerr) := by
    rw [withP_cok (charP_cok ',' h), hce]
    by_cases hb : natFromHex h < u16Bound <;> simp [hb, liftC]
  have hct : optionalP parse_clock_type [] = .eok none [] := by decide
  have hdl : optionalP (withP (charP ',') parse_time_freq) [] = .eok none [] := by
    decide
  have hand : and3P (withP (charP ',') parse_clock_event)
      (optionalP parse_clock_type)
      (optionalP (withP (charP ',') parse_time_freq)) (',' :: h) =
      (if natFromHex h < u16Bound
       then .cok (natFromHex h, (none : Option ClockType), (none : Option Nat)) []
       else .cerr) := by
    unfold and3P
    by_cases hb : natFromHex h < u16Bound
    · rw [bindP_cok (by rw [hfield1, if_pos hb]), bindP_eok hct, mapP_eok hdl,
         if_pos hb]
      rfl
    · rw [bindP_cerr (by rw [hfield1, if_neg hb]), if_neg hb]
  have hclock : parse_clock ('E' :: ',' :: h) =
      (if natFromHex h < u16Bound
       then .cok (Event.Clock (natFromHex h) ClockType.Either 0) []
       else .cerr) := by
    unfold parse_clock
    by_cases hb : natFromHex h < u16Bound
    · have hp : withP (oneOfP "eE".toList)
          (and3P (withP (charP ',') parse_clock_event)
                 (optionalP parse_clock_type)
                 (optionalP (withP (charP ',') parse_time_freq)))
          ('E' :: ',' :: h) =
          .cok (natFromHex h, (none : Option ClockType), (none : Option Nat)) [] := by
        rw [withP_cok (oneOfP_cok (by decide) _), hand, if_pos hb]; rfl
      rw [mapP_cok hp, if_pos hb]; rfl
    · have hp : withP (oneOfP "eE".toList)
          (and3P (withP (charP ',') parse_clock_event)
                 (optionalP parse_clock_type)
                 (optionalP (withP (charP ',') parse_time_freq)))
          ('E' :: ',' :: h) = .cerr := by
        rw [withP_cok (oneOfP_cok (by decide) _), hand, if_neg hb]; rfl
      rw [mapP_cerr hp, if_neg hb]
  have hbody : eventBody ('E' :: ',' :: h) =
      (if natFromHex h < u16Bound
       then .cok (Event.Clock (natFromHex h) ClockType.Either 0) []
       else .cerr) := by
    have hnev : parse_never ('E' :: ',' :: h) = .eerr :=
      valueP_oneOf_eerr _ (by decide) _
    have himm : parse_immediate ('E' :: ',' :: h) = .eerr :=
      valueP_oneOf_eerr _ (by decide) _
    have hper : parse_periodic ('E' :: ',' :: h) = .eerr :=
      mapP_withP_oneOf_eerr (by decide) _ _ _
    have hfil : parse_periodic_filt ('E' :: ',' :: h) = .eerr :=
      mapP_withP_oneOf_eerr (by decide) _ _ _
    unfold eventBody
    rw [orP_eerr hnev, orP_eerr himm, orP_eerr hper, orP_eerr hfil]
    by_cases hb : natFromHex h < u16Bound
    · exact orP_pass (by rw [hclock, if_pos hb]) (by simp) |>.trans (by rw [if_pos hb])
    · exact orP_pass (by rw [hclock, if_neg hb]) (by simp) |>.trans (by rw [if_neg hb])
  unfold parseEvent
  by_cases hb : natFromHex h < u16Bound
  · have hl : withP (charP '@') eventBody ('@' :: 'E' :: ',' :: h) =
        .cok (Event.Clock (natFromHex h) ClockType.Either 0) [] := by
      rw [withP_cok (charP_cok '@' _), hbody, if_pos hb]; rfl
    rw [orP_pass hl (by simp), if_pos hb]
  · have hl : withP (charP '@') eventBody ('@' :: 'E' :: ',' :: h) = .cerr := by
      rw [withP_cok (charP_cok '@' _), hbody, if_neg hb]; rfl
    rw [orP_pass hl (by simp), if_neg hb]

/-- Witness for C4: at the two-digit run `8F` the parse succeeds with
id 143; hypotheses discharged at that concrete run. -/
theorem c4_clock_hex_id_fits16_witness :
    parseEvent "@E,8F".toList = .cok (Event.Clock 143 ClockType.Either 0) [] := by
  have h := c4_clock_hex_id_fits16 ['8', 'F'] (by decide) (by decide)
  exact h.trans (by decide)

/-- Witness for C3 at the concrete input 2: all six shapes evaluate as
stated (2S scales to two million, 2K divides to 500, and so on). -/
theorem c3_scale_rate_saturating_witness :
    scale_rate 2 (some 'S') = 2000000 ∧ scale_rate 2 (some 'm') = 2000 ∧
    scale_rate 2 none = 2000 ∧ scale_rate 2 (some 'u') = 2 ∧
    scale_rate 2 (some 'K') = 500 ∧ scale_rate 2 (some 'h') = 500000 := by
  obtain ⟨hs, hm, hn, hu, hk, hh, -⟩ :=
    c3_scale_rate_saturating 2 (by decide)
  refine ⟨?_, ?_, ?_, ?_, ?_, ?_⟩
  · rw [hs 'S' (Or.inr rfl)]; decide
  · rw [hm 'm' (Or.inl rfl)]; decide
  · rw [hn]; decide
  · exact hu 'u' (Or.inl rfl)
  · rw [hk 'K' (Or.inr rfl)]; decide
  · rw [hh 'h' (Or.inl rfl)]; decide

end Drf
